import Mathlib

/-!
Verification development for the moody-templates compiler/runtime core
(`src/moody/parser.py` and `src/moody/loader.py`).

The embedding models:
* the data model (`Context` params/buffer, `Name`, `Expression`, the `Node`
  variants, `TemplateFragment`, `Template`),
* the tokenizer (`RE_TOKEN` / `tokenize`),
* the recursive tag parser (`ParserRun.parse_template_chunk`, `parse_block`,
  the built-in tag handlers `if_macro`, `for_macro`, `include_macro`,
  `block_macro`, `extends_macro`),
* rendering with the scoping, autoescaping, error-wrapping and inheritance
  (`__blocks__`) bookkeeping of the source,
* the loader (`MemorySource`, `DebugLoader._load_all` / `load` / `render`).

Python's mutable shared state is modelled by explicit state passing: the
variable scope (`context.params`, copied by `Context.block`) is threaded per
context, while the output buffer and the `__blocks__` inheritance bookkeeping
(which are shared by reference across sub-contexts in the source) live in a
separate `Shared` record that is threaded through and never copied.
Exceptions are modelled with `Except`.  Unbounded recursion (template
inclusion cycles, which the source lets recurse until a stack-depth failure)
is modelled with fuel; running out of fuel surfaces like Python's
`RecursionError`, i.e. as an ordinary exception that the fragment boundary
wraps into a render error.

The expression sub-language: the source delegates `Expression` to the host
language's `compile`/`eval`.  Following the specification (§4.3, §9), which
mandates a small dedicated expression grammar for any reimplementation, the
embedding provides the fragment of that language the templates under
verification use: literals (ints, single-quoted strings, `True`/`False`/
`None`), name lookup, list displays, and `==` comparison.
-/

/-- Python whitespace (`\s` of the `re` module): space, tab, newline,
carriage return, form feed, vertical tab. -/
def pyWsChar (c : Char) : Bool :=
  c = ' ' || c = '\t' || c = '\n' || c = Char.ofNat 13 || c = Char.ofNat 12 ||
    c = Char.ofNat 11

/-- `str.strip()` on a list of characters. -/
def pyStripChars (cs : List Char) : List Char :=
  ((cs.dropWhile pyWsChar).reverse.dropWhile pyWsChar).reverse

/-- `str.strip()` on a string. -/
def pyStrip (s : String) : String :=
  String.mk (pyStripChars s.data)

/-- A parsed binding target (`Name` in `parser.py`): the component names and
whether the target is a comma-separated destructuring list. -/
structure NameT where
  names : List String
  isExpandable : Bool
  deriving Repr, DecidableEq

/-- A loader is modelled by its immutable data: the ordered list of registered
in-memory sources, each a name-to-source-text mapping (`MemorySource`).
The source stores a reference to the loader object itself in the reserved
`__loader__` scope entry; the embedding stores this first-order data instead
and interprets it with the (fixed) default parser and loader tag set. -/
abbrev LoaderData := List (List (String × String))

mutual
/-- A runtime value of the expression language (the Python values the
templates under verification manipulate). -/
inductive Value where
  | none : Value
  | bool (b : Bool) : Value
  | int (n : Int) : Value
  | str (s : String) : Value
  | list (xs : List Value) : Value
  | fn (f : String → String) : Value
  | tmpl (t : Template) : Value
  | loaderV (d : List (List (String × String))) : Value

/-- A compiled template expression (`Expression` in `parser.py`); see the
module comment about the expression sub-language. -/
inductive Expr where
  | lit (v : Value) : Expr
  | name (s : String) : Expr
  | listE (es : List Expr) : Expr
  | eq (a b : Expr) : Expr

/-- A node in a compiled template (the `Node` subclasses of `parser.py` and
`loader.py`), each carrying the source line number of its originating tag. -/
inductive Node where
  | string (lineno : Nat) (value : String) : Node
  | expr (lineno : Nat) (e : Expr) : Node
  | ifN (lineno : Nat) (clauses : List (Expr × Fragment))
      (elseBlock : Option Fragment) : Node
  | forN (lineno : Nat) (nm : NameT) (e : Expr) (block : Fragment) : Node
  | includeN (lineno : Nat) (e : Expr) : Node
  | blockN (lineno : Nat) (nm : String) (block : Fragment) : Node
  | extendsN (lineno : Nat) (e : Expr)
      (blockNodes : List (String × Fragment)) : Node

/-- `TemplateFragment`: an ordered sequence of nodes plus the owning
template's name (used for error attribution). -/
inductive Fragment where
  | mk (nodes : List Node) (name : String) : Fragment

/-- `Template`: a fragment plus default parameters. -/
inductive Template where
  | mk (nodes : List Node) (name : String)
      (defaults : List (String × Value)) : Template
end

/-- The variable scope: `context.params`, a name-to-value mapping with
Python-dict update semantics. -/
def Params := List (String × Value)

def Fragment.nodes : Fragment → List Node
  | .mk ns _ => ns

def Fragment.name : Fragment → String
  | .mk _ nm => nm

def Template.nodes : Template → List Node
  | .mk ns _ _ => ns

def Template.name : Template → String
  | .mk _ nm _ => nm

def Template.defaults : Template → List (String × Value)
  | .mk _ _ d => d

/-- The source line number carried by a node (`node.lineno`). -/
def Node.lineno : Node → Nat
  | .string ln _ => ln
  | .expr ln _ => ln
  | .ifN ln _ _ => ln
  | .forN ln _ _ _ => ln
  | .includeN ln _ => ln
  | .blockN ln _ _ => ln
  | .extendsN ln _ _ => ln

/-- Dictionary lookup (`d.get(key)` / `d[key]` on a Python dict). -/
def dictGet : List (String × Value) → String → Option Value
  | [], _ => Option.none
  | (k, v) :: r, key => if k = key then some v else dictGet r key

/-- Dictionary assignment `d[key] = v`, preserving insertion order. -/
def dictSet : List (String × Value) → String → Value → List (String × Value)
  | [], k, v => [(k, v)]
  | (k0, v0) :: r, k, v =>
    if k0 = k then (k0, v) :: r else (k0, v0) :: dictSet r k v

/-- `d.update(p)`: fold the entries of `p` into `d`. -/
def dictUpdate (d p : List (String × Value)) : List (String × Value) :=
  p.foldl (fun acc kv => dictSet acc kv.1 kv.2) d

/-- Python truthiness (`bool(v)`). -/
def pyTruthy : Value → Bool
  | .none => false
  | .bool b => b
  | .int n => n ≠ 0
  | .str s => s ≠ ""
  | .list xs => !xs.isEmpty
  | .fn _ => true
  | .tmpl _ => true
  | .loaderV _ => true

/-- `type(v).__name__`, used in Python error messages. -/
def pyTypeName : Value → String
  | .none => "NoneType"
  | .bool _ => "bool"
  | .int _ => "int"
  | .str _ => "str"
  | .list _ => "list"
  | .fn _ => "function"
  | .tmpl _ => "Template"
  | .loaderV _ => "Loader"

mutual
/-- Python equality `==` on the modelled values (`bool` compares equal to the
corresponding int, as in Python; function/template/loader objects compare by
identity in Python, modelled as never equal here — no template compares
them). -/
def pyEq : Value → Value → Bool
  | .none, .none => true
  | .bool a, .bool b => a == b
  | .bool a, .int b => (if a then (1 : Int) else 0) == b
  | .int a, .bool b => a == (if b then (1 : Int) else 0)
  | .int a, .int b => a == b
  | .str a, .str b => a == b
  | .list a, .list b => pyEqList a b
  | _, _ => false

def pyEqList : List Value → List Value → Bool
  | [], [] => true
  | a :: as_, b :: bs => pyEq a b && pyEqList as_ bs
  | _, _ => false
end

mutual
/-- Python `str(v)`. -/
def pyStr : Value → String
  | .none => "None"
  | .bool b => if b then "True" else "False"
  | .int n => toString n
  | .str s => s
  | .list xs => "[" ++ pyReprJoin xs ++ "]"
  | .fn _ => "<function>"
  | .tmpl _ => "<moody.parser.Template object>"
  | .loaderV _ => "<moody.loader.Loader object>"

/-- Python `repr(v)` (string quoting is modelled without escape handling;
no template under verification prints a string containing a quote). -/
def pyRepr : Value → String
  | .str s => "'" ++ s ++ "'"
  | .none => "None"
  | .bool b => if b then "True" else "False"
  | .int n => toString n
  | .list xs => "[" ++ pyReprJoin xs ++ "]"
  | .fn _ => "<function>"
  | .tmpl _ => "<moody.parser.Template object>"
  | .loaderV _ => "<moody.loader.Loader object>"

def pyReprJoin : List Value → String
  | [] => ""
  | [x] => pyRepr x
  | x :: xs => pyRepr x ++ ", " ++ pyReprJoin xs
end

/-- Python `iter(v)` materialised as the list of items, or a `TypeError`
message (`'int' object is not iterable`). -/
def pyIter : Value → Except String (List Value)
  | .list xs => .ok xs
  | .str s => .ok (s.data.map fun c => .str (String.mk [c]))
  | v => .error ("'" ++ pyTypeName v ++ "' object is not iterable")

/-- `xml.sax.saxutils.escape`: the autoescape function installed for
`.xml`/`.xhtml`/`.html`/`.htm` templates. -/
def xmlEscapeChars : List Char → List Char
  | [] => []
  | c :: rest =>
    if c = '&' then '&' :: 'a' :: 'm' :: 'p' :: ';' :: xmlEscapeChars rest
    else if c = '<' then '&' :: 'l' :: 't' :: ';' :: xmlEscapeChars rest
    else if c = '>' then '&' :: 'g' :: 't' :: ';' :: xmlEscapeChars rest
    else c :: xmlEscapeChars rest

def xmlEscape (s : String) : String :=
  String.mk (xmlEscapeChars s.data)

/-- The extension part of `os.path.splitext(name)`: the suffix of the
basename starting at its last dot, unless only dots precede it. -/
def splitextExt (nm : String) : String :=
  let bn := (nm.data.reverse.takeWhile (· ≠ '/')).reverse
  let rev := bn.reverse
  let extRevLen := (rev.takeWhile (· ≠ '.')).length
  if extRevLen = rev.length then ""  -- no dot at all
  else
    let pre := bn.take (bn.length - extRevLen - 1)  -- chars before the dot
    if pre.all (· = '.') then ""
    else String.mk (bn.drop (bn.length - extRevLen - 1))

mutual
/-- `Expression.eval`: evaluate an expression against the scope.  Name lookup
failures carry Python's `NameError` message. -/
def evalExpr : Expr → List (String × Value) → Except String Value
  | .lit v, _ => .ok v
  | .name s, p =>
    match dictGet p s with
    | some v => .ok v
    | Option.none => .error ("name '" ++ s ++ "' is not defined")
  | .listE es, p => (evalExprList es p).map .list
  | .eq a b, p => do
    let va ← evalExpr a p
    let vb ← evalExpr b p
    .ok (.bool (pyEq va vb))

def evalExprList :
    List Expr → List (String × Value) → Except String (List Value)
  | [], _ => .ok []
  | e :: es, p => do
    let v ← evalExpr e p
    let vs ← evalExprList es p
    .ok (v :: vs)
end

def isIdentStart (c : Char) : Bool := c.isAlpha || c = '_'

def isIdentChar (c : Char) : Bool := c.isAlpha || c.isDigit || c = '_'

/-- Skip blanks inside an expression (the host expression compiler accepts
spaces and tabs between tokens). -/
def skipSpaces : List Char → List Char
  | [] => []
  | c :: rest => if c = ' ' || c = '\t' then skipSpaces rest else c :: rest

/-- The numeric value of a digit string. -/
def digitsToNat (cs : List Char) : Nat :=
  cs.foldl (fun acc c => acc * 10 + (c.toNat - '0'.toNat)) 0

mutual
/-- One atom of the expression grammar: an int literal, a single-quoted
string literal, `True`/`False`/`None`, a name, or a list display. -/
def parseAtomF : Nat → List Char → Except String (Expr × List Char)
  | 0, _ => .error "invalid syntax"
  | _ + 1, [] => .error "invalid syntax"
  | fuel + 1, c :: rest =>
    if c.isDigit then
      let ds := (c :: rest).takeWhile Char.isDigit
      .ok (.lit (.int (digitsToNat ds)), (c :: rest).dropWhile Char.isDigit)
    else if c = '\'' then
      let body := rest.takeWhile (· ≠ '\'')
      match rest.drop body.length with
      | '\'' :: rest2 => .ok (.lit (.str (String.mk body)), rest2)
      | _ => .error "EOL while scanning string literal"
    else if c = '[' then parseListF fuel (skipSpaces rest)
    else if isIdentStart c then
      let ident := String.mk ((c :: rest).takeWhile isIdentChar)
      let rest2 := (c :: rest).dropWhile isIdentChar
      if ident = "True" then .ok (.lit (.bool true), rest2)
      else if ident = "False" then .ok (.lit (.bool false), rest2)
      else if ident = "None" then .ok (.lit .none, rest2)
      else .ok (.name ident, rest2)
    else .error "invalid syntax"

/-- The elements of a list display, after the opening bracket. -/
def parseListF : Nat → List Char → Except String (Expr × List Char)
  | 0, _ => .error "invalid syntax"
  | fuel + 1, cs =>
    match cs with
    | ']' :: rest => .ok (.listE [], rest)
    | _ => do
      let (e, rest) ← parseExprCore fuel cs
      parseListTail fuel [e] (skipSpaces rest)

/-- The remaining elements of a list display, after the first element. -/
def parseListTail :
    Nat → List Expr → List Char → Except String (Expr × List Char)
  | 0, _, _ => .error "invalid syntax"
  | fuel + 1, acc, cs =>
    match cs with
    | ']' :: rest => .ok (.listE acc.reverse, rest)
    | ',' :: rest => do
      let (e, rest2) ← parseExprCore fuel (skipSpaces rest)
      parseListTail fuel (e :: acc) (skipSpaces rest2)
    | _ => .error "invalid syntax"

/-- An expression: an atom optionally followed by `== atom`. -/
def parseExprCore : Nat → List Char → Except String (Expr × List Char)
  | 0, _ => .error "invalid syntax"
  | fuel + 1, cs => do
    let (a, rest) ← parseAtomF fuel cs
    match skipSpaces rest with
    | '=' :: '=' :: rest2 => do
      let (b, rest3) ← parseAtomF fuel (skipSpaces rest2)
      .ok (.eq a b, rest3)
    | _ => .ok (a, rest)
end

/-- `Expression.__init__` / `compile(expression, "<string>", "eval")`: parse
an expression string.  A leading blank is an `IndentationError` in eval mode,
mirrored here; other failures use the generic `SyntaxError` message. -/
def parseExpr (s : String) : Except String Expr :=
  match s.data with
  | [] => .error "unexpected EOF while parsing"
  | c :: _ =>
    if pyWsChar c then .error "unexpected indent"
    else do
      let (e, rest) ← parseExprCore (s.data.length + 1) s.data
      match skipSpaces rest with
      | [] => .ok e
      | _ => .error "invalid syntax"

/-- Full match of `RE_NAME = ^[a-zA-Z_][a-zA-Z_0-9]*$`. -/
def reNameMatch (s : String) : Bool :=
  match s.data with
  | [] => false
  | c :: rest => isIdentStart c && rest.all isIdentChar

/-- The validation loop of `Name.__init__` (error message reproduced with the
source's spelling). -/
def nameValidate (names : List String) (expandable : Bool) :
    Except String NameT :=
  match names.find? (fun n => !reNameMatch n) with
  | some bad =>
    .error ("'" ++ bad ++ "' is not a valid variable name. Only letters, " ++
      "numbers and undescores are allowed.")
  | Option.none => .ok ⟨names, expandable⟩

/-- `Name.__init__`: parse a binding target.  A destructuring target whose
last component is empty hits the source's unbound local (`names.pop()`),
i.e. a Python `NameError`. -/
def splitOnComma : List Char → List (List Char)
  | [] => [[]]
  | c :: rest =>
    if c = ',' then [] :: splitOnComma rest
    else
      match splitOnComma rest with
      | [] => [[c]]
      | l :: ls => (c :: l) :: ls

def nameParse (nameStr : String) : Except String NameT :=
  if nameStr.data.contains ',' then
    let parts := (splitOnComma nameStr.data).map fun l => pyStrip (String.mk l)
    if parts.getLast? = some "" then .error "name 'names' is not defined"
    else nameValidate parts true
  else nameValidate [nameStr] false

/-- The destructuring loop of `Name.set`: consume exactly one item per name;
too few items and too many items raise distinct `ValueError`s (the second
message reproduces the source's wording). -/
def nameSetExpand (total : Nat) :
    List String → List Value → List (String × Value) →
    Except String (List (String × Value))
  | [], [], p => .ok p
  | [], _ :: _, _ =>
    .error ("Need more that " ++ toString total ++ " values to unpack.")
  | _ :: _, [], _ => .error "Not enough values to unpack."
  | n :: ns, v :: vs, p => nameSetExpand total ns vs (dictSet p n v)

/-- `Name.set`: bind a value in the scope under this target. -/
def nameSet (nm : NameT) (p : List (String × Value)) (v : Value) :
    Except String (List (String × Value)) :=
  if nm.isExpandable then do
    let xs ← pyIter v
    nameSetExpand nm.names.length nm.names xs p
  else .ok (dictSet p (nm.names.headD "") v)

/-- The kind tag of a token (the `"STRING"` / `"EXPRESSION"` / `"MACRO"`
strings of `tokenize`). -/
inductive TokType where
  | str | expr | tag
  deriving Repr, DecidableEq

/-- A token: `(lineno, kind, contents)`. -/
abbrev Token := Nat × TokType × String

/-- Split a list at the first occurrence of the adjacent pair `a, b`,
returning the part before the pair and the part after it. -/
def findPair (a b : Char) : List Char → Option (List Char × List Char)
  | [] => Option.none
  | [_] => Option.none
  | x :: y :: rest =>
    if x = a ∧ y = b then some ([], rest)
    else
      match findPair a b (y :: rest) with
      | some (p, s) => some (x :: p, s)
      | Option.none => Option.none

theorem findPair_eq {a b : Char} :
    ∀ {cs p s : List Char}, findPair a b cs = some (p, s) →
      cs = p ++ a :: b :: s := by
  intro cs
  induction cs with
  | nil => intro p s h; simp [findPair] at h
  | cons x rest ih =>
    intro p s h
    cases rest with
    | nil => simp [findPair] at h
    | cons y r =>
      rw [findPair] at h
      split at h
      · rename_i hab
        injection h with h2
        rw [Prod.mk.injEq] at h2
        obtain ⟨hp, hs⟩ := h2
        subst hp hs
        simp [hab.1, hab.2]
      · cases hfp : findPair a b (y :: r) with
        | none => rw [hfp] at h; simp at h
        | some pr =>
          obtain ⟨p', s'⟩ := pr
          rw [hfp] at h
          simp only [] at h
          injection h with h2
          rw [Prod.mk.injEq] at h2
          obtain ⟨hp, hs⟩ := h2
          subst hp hs
          have hrec := ih hfp
          rw [hrec]
          simp

theorem findPair_len {a b : Char} {cs p s : List Char}
    (h : findPair a b cs = some (p, s)) : s.length + 2 ≤ cs.length := by
  have := findPair_eq h
  subst this
  simp only [List.length_append, List.length_cons]
  omega

/-- A raw match of the token regex
`RE_TOKEN = {#.+?#}|{{\s*(.*?)\s*}}|{%\s*(.*?)\s*%}`: a comment (dropped), an
expression capture, or a tag capture (captures already whitespace-stripped,
as the lazy capture between the `\s*` groups produces). -/
inductive RawTok where
  | comment : RawTok
  | exprT (s : String) : RawTok
  | tagT (s : String) : RawTok
  deriving Repr, DecidableEq

instance : Inhabited RawTok := ⟨.comment⟩

/-- Try to match `RE_TOKEN` at the current position.  The three alternatives
are distinguished by the character after the opening brace; the comment
alternative needs at least one character before its closer (`.+?`), the other
two take the shortest match ending at the first following closer and strip
the captured content. -/
def matchAt2 (c1 c2 : Char) (rest : List Char) :
    Option (RawTok × List Char) :=
  if c1 = '{' ∧ c2 = '#' then
    match rest with
    | _ :: rtail =>
      (findPair '#' '}' rtail).map fun pr => (RawTok.comment, pr.2)
    | [] => Option.none
  else if c1 = '{' ∧ c2 = '{' then
    (findPair '}' '}' rest).map fun pr =>
      (RawTok.exprT (pyStrip (String.mk pr.1)), pr.2)
  else if c1 = '{' ∧ c2 = '%' then
    (findPair '%' '}' rest).map fun pr =>
      (RawTok.tagT (pyStrip (String.mk pr.1)), pr.2)
  else Option.none

def matchAt : List Char → Option (RawTok × List Char)
  | c1 :: c2 :: rest => matchAt2 c1 c2 rest
  | _ => Option.none

theorem matchAt2_len {c1 c2 : Char} {rest : List Char} {t : RawTok}
    {after : List Char} (h : matchAt2 c1 c2 rest = some (t, after)) :
    after.length < rest.length + 2 := by
  rw [matchAt2.eq_def] at h
  split at h
  · cases rest with
    | nil => simp at h
    | cons r0 rtail =>
      simp only [Option.map_eq_some'] at h
      obtain ⟨pr, hfp, hpr⟩ := h
      have := @findPair_len '#' '}' rtail pr.1 pr.2 (by rw [hfp])
      have hafter : after = pr.2 := by
        rw [Prod.mk.injEq] at hpr
        exact hpr.2.symm
      rw [hafter]
      simp only [List.length_cons]
      omega
  · split at h
    · simp only [Option.map_eq_some'] at h
      obtain ⟨pr, hfp, hpr⟩ := h
      have := @findPair_len '}' '}' rest pr.1 pr.2 (by rw [hfp])
      have hafter : after = pr.2 := by
        rw [Prod.mk.injEq] at hpr
        exact hpr.2.symm
      rw [hafter]
      omega
    · split at h
      · simp only [Option.map_eq_some'] at h
        obtain ⟨pr, hfp, hpr⟩ := h
        have := @findPair_len '%' '}' rest pr.1 pr.2 (by rw [hfp])
        have hafter : after = pr.2 := by
          rw [Prod.mk.injEq] at hpr
          exact hpr.2.symm
        rw [hafter]
        omega
      · simp at h

theorem matchAt_len : ∀ {cs : List Char} {t : RawTok} {after : List Char},
    matchAt cs = some (t, after) → after.length < cs.length := by
  intro cs t after h
  cases cs with
  | nil => simp [matchAt] at h
  | cons c1 cs1 =>
    cases cs1 with
    | nil => simp [matchAt] at h
    | cons c2 rest =>
      rw [matchAt] at h
      have := matchAt2_len h
      simp only [List.length_cons]
      omega

/-- `RE_TOKEN.finditer` step: scan for the leftmost match, returning the
literal text before it, the match, and the rest of the line. -/
def scanTok : List Char → Option (List Char × RawTok × List Char)
  | [] => Option.none
  | c :: rest =>
    match matchAt (c :: rest) with
    | some (t, after) => some ([], t, after)
    | Option.none =>
      match scanTok rest with
      | some (pre, t, after) => some (c :: pre, t, after)
      | Option.none => Option.none

theorem scanTok_len : ∀ {cs pre : List Char} {t : RawTok} {after : List Char},
    scanTok cs = some (pre, t, after) → after.length < cs.length := by
  intro cs
  induction cs with
  | nil => intro pre t after h; simp [scanTok] at h
  | cons c rest ih =>
    intro pre t after h
    rw [scanTok] at h
    cases hm : matchAt (c :: rest) with
    | some pr =>
      obtain ⟨t', after'⟩ := pr
      rw [hm] at h
      injection h with h2
      rw [Prod.mk.injEq] at h2
      obtain ⟨_, h3⟩ := h2
      rw [Prod.mk.injEq] at h3
      obtain ⟨ht, hs⟩ := h3
      subst ht hs
      exact matchAt_len hm
    | none =>
      rw [hm] at h
      cases hsc : scanTok rest with
      | none => rw [hsc] at h; simp at h
      | some pr =>
        obtain ⟨pre', t', after'⟩ := pr
        rw [hsc] at h
        injection h with h2
        rw [Prod.mk.injEq] at h2
        obtain ⟨_, h3⟩ := h2
        rw [Prod.mk.injEq] at h3
        obtain ⟨ht, hs⟩ := h3
        subst ht hs
        have := ih hsc
        simp
        omega

/-- The token(s) a raw match contributes: comments are dropped, and an empty
capture is falsy in Python, so it contributes no token either. -/
def tokOf (lineno : Nat) : RawTok → List Token
  | .comment => []
  | .exprT s => if s ≠ "" then [(lineno, .expr, s)] else []
  | .tagT s => if s ≠ "" then [(lineno, .tag, s)] else []

/-- The per-line loop of `tokenize`: literal text between matches becomes
(non-empty) `STRING` tokens, and the text after the last match is always
yielded as a final `STRING` token, even when empty.  The fuel is structural
bookkeeping only: every match consumes characters (`scanTok_len`), so the
`cs.length + 1` supplied by `lineToks` always suffices. -/
def lineToksF (lineno : Nat) : Nat → List Char → List Token
  | 0, cs => [(lineno, .str, String.mk cs)]
  | fuel + 1, cs =>
    match scanTok cs with
    | Option.none => [(lineno, .str, String.mk cs)]
    | some (pre, t, after) =>
      (if pre ≠ [] then [(lineno, .str, String.mk pre)] else []) ++
        tokOf lineno t ++ lineToksF lineno fuel after

def lineToks (lineno : Nat) (cs : List Char) : List Token :=
  lineToksF lineno (cs.length + 1) cs

/-- `template.splitlines(True)`: split after every newline, keeping the line
ends.  (Python also splits on other line boundary characters such as `\r`;
the templates under verification use `\n` only.) -/
def splitlinesKeep : List Char → List (List Char)
  | [] => []
  | c :: rest =>
    if c = '\n' then [c] :: splitlinesKeep rest
    else
      match splitlinesKeep rest with
      | [] => [[c]]
      | l :: ls => (c :: l) :: ls

/-- `enumerate(lines, 1)`. -/
def enum1From (n : Nat) : List (List Char) → List (Nat × List Char)
  | [] => []
  | l :: ls => (n, l) :: enum1From (n + 1) ls

/-- `tokenize(template)`: the line-numbered token stream. -/
def tokenize (template : String) : List Token :=
  (enum1From 1 (splitlinesKeep template.data)).flatMap fun pr =>
    lineToks pr.1 pr.2

/-- Match `^kw\s+(.+?)$` (the grammar of `if_macro`, `include_macro` and
`extends_macro`): the keyword, at least one whitespace character, then a
non-empty lazy capture anchored at the end — i.e. the rest with its leading
whitespace run removed; if that is empty, greedy/lazy backtracking leaves the
last whitespace character as the capture. -/
def matchTagArg (kw : String) (s : String) : Option String :=
  let cs := s.data
  if cs.take kw.data.length = kw.data then
    let t := cs.drop kw.data.length
    match t with
    | [] => Option.none
    | c :: _ =>
      if pyWsChar c then
        let u := t.dropWhile pyWsChar
        if u ≠ [] then some (String.mk u)
        else if t.length ≥ 2 then some (String.mk [t.getLast?.getD ' '])
        else Option.none
      else Option.none
  else Option.none

/-- Match `\s+in\s+(.+?)$` against the text following a candidate first
capture of the `for_macro` grammar. -/
def matchForRest (t : List Char) : Option String :=
  match t with
  | [] => Option.none
  | c :: _ =>
    if pyWsChar c then
      match t.dropWhile pyWsChar with
      | 'i' :: 'n' :: v =>
        (match v with
         | [] => Option.none
         | c2 :: _ =>
           if pyWsChar c2 then
             let w := v.dropWhile pyWsChar
             if w ≠ [] then some (String.mk w)
             else if v.length ≥ 2 then some (String.mk [v.getLast?.getD ' '])
             else Option.none
           else Option.none)
      | _ => Option.none
    else Option.none

/-- The lazy first capture of `^for\s+(.+?)\s+in\s+(.+?)$`: extend the
binding-target part one character at a time (shortest first, as the lazy
quantifier does) until the rest matches `\s+in\s+(.+?)$`. -/
def matchForScan : List Char → List Char → Option (String × String)
  | _, [] => Option.none
  | acc, c :: rest =>
    match matchForRest rest with
    | some e => some (String.mk (acc ++ [c]), e)
    | Option.none => matchForScan (acc ++ [c]) rest

/-- Match the `for_macro` grammar `^for\s+(.+?)\s+in\s+(.+?)$`, returning the
binding target text and the iterable expression text. -/
def matchFor (s : String) : Option (String × String) :=
  let cs := s.data
  if cs.take 3 = "for".data then
    let t := cs.drop 3
    match t with
    | [] => Option.none
    | c :: _ =>
      if pyWsChar c then matchForScan [] (t.dropWhile pyWsChar)
      else Option.none
  else Option.none

def isBlockNameChar (c : Char) : Bool :=
  c.isAlpha || c.isDigit || c = '_' || c = '-'

/-- Match the `block_macro` grammar `^block\s+([a-zA-Z_][a-zA-Z_\-0-9]*)$`. -/
def matchBlockTag (s : String) : Option String :=
  let cs := s.data
  if cs.take 5 = "block".data then
    match cs.drop 5 with
    | [] => Option.none
    | c :: _ =>
      if pyWsChar c then
        match (cs.drop 5).dropWhile pyWsChar with
        | [] => Option.none
        | c0 :: urest =>
          if isIdentStart c0 && urest.all isBlockNameChar then
            some (String.mk (c0 :: urest))
          else Option.none
      else Option.none
  else Option.none

/-- Match the end-tag regex of `block_macro`:
`^endblock$|^endblock\s+NAME$`. -/
def matchEndblock (blockName : String) (s : String) : Bool :=
  s = "endblock" ||
    (let cs := s.data
     decide (cs.take 8 = "endblock".data) &&
       match cs.drop 8 with
       | c :: _ =>
         pyWsChar c && decide ((cs.drop 8).dropWhile pyWsChar = blockName.data)
       | [] => false)

/-- The alternatives of `RE_IF_CLAUSE = ^(elif) (.+?)$|^(else)$|^(endif)$`
(note the literal single space after `elif`).  The type doubles as the
generic result of a terminator-pattern match in `parse_block`: a terminator
with no captured groups (`endfor`, `endblock`, `endif`) is `endifC`. -/
inductive IfClause where
  | elifC (cond : String)
  | elseC
  | endifC
  deriving Repr, DecidableEq

def matchIfClause (s : String) : Option IfClause :=
  let cs := s.data
  if cs.take 5 = ['e', 'l', 'i', 'f', ' '] then
    match cs.drop 5 with
    | [] =>
      if s = "else" then some .elseC
      else if s = "endif" then some .endifC
      else Option.none
    | rest => some (.elifC (String.mk rest))
  else if s = "else" then some .elseC
  else if s = "endif" then some .endifC
  else Option.none

/-- A compile-time failure: `raw` models an ordinary Python exception
(`SyntaxError`, `ValueError`, `NameError`, …) before a chunk boundary wraps
it; `comp` models `TemplateCompileError(message, template_name, lineno)`. -/
inductive PErr where
  | raw (msg : String)
  | comp (msg name : String) (lineno : Nat)
  deriving Repr, DecidableEq

def liftRawP {α : Type} (x : Except String α) : Except PErr α :=
  x.mapError .raw

/-- The outcome of `parse_template_chunk`: the first unmatched tag text (or
none at end of input), the final value of the loop's `lineno` variable (used
when the end-chunk handler raises), the nodes parsed, and the remaining
token stream. -/
structure ChunkEnd where
  unmatched : Option String
  lineno : Nat
  nodes : List Node
  rest : List Token

/-- The registered grammar extensions, in registration order: `if_macro` and
`for_macro` from `parser.py`, plus the loader's `include_macro`,
`block_macro` and `extends_macro`. -/
inductive TagKind where
  | ifTag | forTag | includeTag | blockTag | extendsTag
  deriving Repr, DecidableEq

/-- The captured groups of a matched tag grammar. -/
inductive TagArgs where
  | ifA (cond : String)
  | forA (nameStr expr : String)
  | includeA (expr : String)
  | blockA (nm : String)
  | extendsA (expr : String)
  deriving Repr, DecidableEq

/-- Match one handler's grammar against a tag's text (the `regex_macro`
wrapper). -/
def tagMatch : TagKind → String → Option TagArgs
  | .ifTag, s => (matchTagArg "if" s).map .ifA
  | .forTag, s => (matchFor s).map fun pr => .forA pr.1 pr.2
  | .includeTag, s => (matchTagArg "include" s).map .includeA
  | .blockTag, s => (matchBlockTag s).map .blockA
  | .extendsTag, s => (matchTagArg "extends" s).map .extendsA

mutual
/-- `ParserRun.parse_template_chunk`: consume tokens, emitting a string node
per `STRING` token and an expression node per `EXPRESSION` token; for a
`MACRO` token, try the registered handlers in order — the first match
processes the tag (possibly consuming a nested sub-block), and if none
matches the chunk ends with that tag unmatched.  Failures raised while
processing a token are wrapped into a `TemplateCompileError` carrying the
template name and the current line number, unless already wrapped. -/
def parseChunk (name : String) (tags : List TagKind) (fuel : Nat)
    (lastLn0 : Nat) (toks : List Token) : Except PErr ChunkEnd :=
  match fuel, lastLn0, toks with
  | 0, lastLn, _ =>
    .error (.comp "maximum recursion depth exceeded" name lastLn)
  | _ + 1, lastLn, [] => .ok ⟨Option.none, lastLn, [], []⟩
  | fuel + 1, _, (ln, .str, s) :: rest =>
    (match parseChunk name tags fuel ln rest with
     | .error e => .error e
     | .ok ce => .ok { ce with nodes := .string ln s :: ce.nodes })
  | fuel + 1, _, (ln, .expr, s) :: rest =>
    (match parseExpr s with
     | .error m => .error (.comp m name ln)
     | .ok e =>
       match parseChunk name tags fuel ln rest with
       | .error e2 => .error e2
       | .ok ce => .ok { ce with nodes := .expr ln e :: ce.nodes })
  | fuel + 1, _, (ln, .tag, s) :: rest =>
    (match tryTags name tags fuel tags s ln rest with
     | .error (.raw m) => .error (.comp m name ln)
     | .error e => .error e
     | .ok Option.none => .ok ⟨some s, ln, [], rest⟩
     | .ok (some (node, rest2)) =>
       match parseChunk name tags fuel ln rest2 with
       | .error e => .error e
       | .ok ce => .ok { ce with nodes := node :: ce.nodes })

termination_by structural fuel

/-- The handler-dispatch loop of `parse_template_chunk`: try each registered
handler's grammar in order; the first whose grammar matches runs. -/
def tryTags (name : String) (tags : List TagKind) (fuel : Nat)
    (tks0 : List TagKind) (s0 : String) (ln0 : Nat) (toks : List Token) :
    Except PErr (Option (Node × List Token)) :=
  match fuel, tks0, s0, ln0, toks with
  | 0, _, _, _, _ => .error (.raw "maximum recursion depth exceeded")
  | _ + 1, [], _, _, _ => .ok Option.none
  | fuel + 1, tk :: tks, s, ln, rest =>
    (match tagMatch tk s with
     | Option.none => tryTags name tags fuel tks s ln rest
     | some args =>
       match applyTag name tags fuel args ln rest with
       | .error e => .error e
       | .ok pr => .ok (some pr))

termination_by structural fuel

/-- The bodies of the tag handlers (`if_macro`, `for_macro`, `include_macro`,
`block_macro`, `extends_macro`), given their captured groups. -/
def applyTag (name : String) (tags : List TagKind) (fuel : Nat)
    (args0 : TagArgs) (ln0 : Nat) (toks : List Token) :
    Except PErr (Node × List Token) :=
  match fuel, args0, ln0, toks with
  | 0, _, _, _ => .error (.raw "maximum recursion depth exceeded")
  | fuel + 1, .ifA cond, ln, rest =>
    ifTagLoop name tags fuel cond [] false Option.none ln rest
  | fuel + 1, .forA nmS exS, ln, rest =>
    (match parseBlockF name tags fuel "for" "endfor"
        (fun s => if s = "endfor" then some .endifC else Option.none) rest
     with
     | .error e => .error e
     | .ok (_, frag, rest2) =>
       match nameParse nmS with
       | .error m => .error (.raw m)
       | .ok nm =>
         match parseExpr exS with
         | .error m => .error (.raw m)
         | .ok e => .ok (.forN ln nm e frag, rest2))
  | _ + 1, .includeA exS, ln, rest =>
    (match parseExpr exS with
     | .error m => .error (.raw m)
     | .ok e => .ok (.includeN ln e, rest))
  | fuel + 1, .blockA bn, ln, rest =>
    (match parseBlockF name tags fuel "block" "endblock"
        (fun s => if matchEndblock bn s then some .endifC else Option.none)
        rest
     with
     | .error e => .error e
     | .ok (_, frag, rest2) => .ok (.blockN ln bn frag, rest2))
  | fuel + 1, .extendsA exS, ln, rest =>
    -- `extends_macro`: parse the rest of the template (`parse_all_nodes`),
    -- then collect the top-level block nodes as the override set.
    (match parseChunk name tags fuel 0 rest with
     | .error e => .error e
     | .ok ce =>
       match ce.unmatched with
       | some s =>
         .error (.comp ("\x7b% " ++ s ++ " %\x7d is not a recognized tag.")
           name ce.lineno)
       | Option.none =>
         match parseExpr exS with
         | .error m => .error (.raw m)
         | .ok e =>
           .ok (.extendsN ln e (ce.nodes.filterMap fun n =>
             match n with
             | .blockN _ bn frag => some (bn, frag)
             | _ => Option.none), ce.rest))

termination_by structural fuel

/-- The `while True` loop of `if_macro`, with its state `(expression,
clauses, else_tag, else_block)`.  A clause's `Expression` is compiled when
the clause is appended; an `elif` after an `else`, or a second `else`,
raises a `SyntaxError` (wrapped by the enclosing chunk). -/
def ifTagLoop (name : String) (tags : List TagKind) (fuel : Nat)
    (cond0 : String) (clauses0 : List (Expr × Fragment)) (elseTag0 : Bool)
    (elseBlock0 : Option Fragment) (ln0 : Nat) (toks : List Token) :
    Except PErr (Node × List Token) :=
  match fuel, cond0, clauses0, elseTag0, elseBlock0, ln0, toks with
  | 0, _, _, _, _, _, _ => .error (.raw "maximum recursion depth exceeded")
  | fuel + 1, cond, clauses, elseTag, elseBlock, ln, rest =>
    (match parseBlockF name tags fuel "if" "endif" matchIfClause rest with
     | .error e => .error e
     | .ok (m, frag, rest2) =>
       match
         (if elseTag then .ok (clauses, some frag)
          else
            match parseExpr cond with
            | .error ms => .error (.raw ms)
            | .ok e => .ok (clauses ++ [(e, frag)], elseBlock) :
          Except PErr (List (Expr × Fragment) × Option Fragment))
       with
       | .error e => .error e
       | .ok (clauses2, elseBlock2) =>
         match m with
         | .elifC c2 =>
           if elseTag then
             .error (.raw
               "\x7b% elif %\x7d tag cannot come after \x7b% else %\x7d.")
           else ifTagLoop name tags fuel c2 clauses2 elseTag elseBlock2 ln rest2
         | .elseC =>
           if elseTag then
             .error (.raw
               "Only one \x7b% else %\x7d tag is allowed per \x7b% if %\x7d macro.")
           else ifTagLoop name tags fuel cond clauses2 true elseBlock2 ln rest2
         | .endifC => .ok (.ifN ln clauses2 elseBlock2, rest2))

termination_by structural fuel

/-- `ParserRun.parse_block`: parse a nested chunk, then validate the first
unmatched tag against the caller-supplied terminator pattern.  Reaching the
end of input without an unmatched tag raises — in the source, the
`SyntaxError` message's format string `"{% {} %} tag could not..."` has
unescaped braces, so `str.format` itself raises
`ValueError("unexpected '\x7b' in field name")`, which is what the chunk
boundary wraps; a non-matching unmatched tag raises the "not a recognized
tag" `SyntaxError`.  Both are raised by the end-chunk handler inside the
nested chunk's `try`, so they are wrapped with the nested chunk's final line
number. -/
def parseBlockF (name : String) (tags : List TagKind) (fuel : Nat)
    (startTag0 endTag0 : String) (endMatch0 : String → Option IfClause)
    (toks : List Token) : Except PErr (IfClause × Fragment × List Token) :=
  match fuel, startTag0, endTag0, endMatch0, toks with
  | 0, _, _, _, _ => .error (.raw "maximum recursion depth exceeded")
  | fuel + 1, _startTag, _endTag, endMatch, toks =>
    (match parseChunk name tags fuel 0 toks with
     | .error e => .error e
     | .ok ce =>
       match ce.unmatched with
       | Option.none =>
         .error (.comp "unexpected '\x7b' in field name" name ce.lineno)
       | some s =>
         match endMatch s with
         | Option.none =>
           .error (.comp ("\x7b% " ++ s ++ " %\x7d is not a recognized tag.")
             name ce.lineno)
         | some g => .ok (g, Fragment.mk ce.nodes name, ce.rest))
termination_by structural fuel

end


/-- `ParserRun.parse_all_nodes`: parse to the end of input; a leftover
unmatched tag is an "unrecognized tag" compile error. -/
def parseAllNodes (name : String) (tags : List TagKind) (fuel : Nat)
    (toks : List Token) : Except PErr (List Node) := do
  let ce ← parseChunk name tags fuel 0 toks
  match ce.unmatched with
  | some s =>
    .error (.comp ("\x7b% " ++ s ++ " %\x7d is not a recognized tag.") name
      ce.lineno)
  | Option.none => .ok ce.nodes

/-- `Parser.compile`: tokenize and parse the template.  The fuel bound is
comfortably larger than the number of parser steps, which consume at least
one token each apart from a bounded overhead per token. -/
def compileT (template : String) (name : String)
    (defaults : List (String × Value)) (tags : List TagKind) :
    Except PErr Template := do
  let toks := tokenize template
  let nodes ← parseAllNodes name tags (16 * (toks.length + 2)) toks
  .ok (Template.mk nodes name defaults)

/-- `DEFAULT_MACROS` of `parser.py`: `(if_macro, for_macro)`. -/
def defaultTags : List TagKind := [.ifTag, .forTag]

/-- `DEFAULT_LOADER_MACROS` of `loader.py`:
`(include_macro, block_macro, extends_macro)`. -/
def loaderTags : List TagKind := [.includeTag, .blockTag, .extendsTag]

/-- `moody.parser.default_parser.compile(template)` (name defaulting to
`"<string>"`, no default params, no extra macros). -/
def parserCompile (template : String) : Except PErr Template :=
  compileT template "<string>" [] defaultTags

/-- A render-time failure: `raw` models an ordinary Python exception before a
fragment boundary wraps it; `renderE` models
`TemplateRenderError(message, template_name, lineno)`. -/
inductive RErr where
  | raw (msg : String)
  | renderE (msg name : String) (lineno : Nat)
  deriving Repr, DecidableEq

def liftRawR {α : Type} (x : Except String α) : Except RErr α :=
  x.mapError .raw

/-- The by-reference parts of the render state: the output buffer (always
shared, never copied) and the `__blocks__` inheritance bookkeeping, a dict
that `ExtendsNode.render` installs into the scope with `setdefault` and that
is shared by reference across sub-context copies (`none` models the key
being absent from every scope of this render). -/
structure Shared where
  buffer : List String
  blocks : Option (List (String × List Fragment))

/-- Lookup in the `__blocks__` dict. -/
def bmGet : List (String × List Fragment) → String → Option (List Fragment)
  | [], _ => Option.none
  | (k, v) :: r, key => if k = key then some v else bmGet r key

/-- Assignment in the `__blocks__` dict (replace an existing key's value). -/
def bmSet : List (String × List Fragment) → String → List Fragment →
    List (String × List Fragment)
  | [], k, v => [(k, v)]
  | (k0, v0) :: r, k, v =>
    if k0 = k then (k0, v) :: r else (k0, v0) :: bmSet r k v

/-- `block_info.setdefault(name, []).append(block)`. -/
def bmAppend (m : List (String × List Fragment)) (nm : String)
    (blk : Fragment) : List (String × List Fragment) :=
  match bmGet m nm with
  | some st => bmSet m nm (st ++ [blk])
  | Option.none => m ++ [(nm, [blk])]

/-- A loader failure: `TemplateDoesNotExist`, a compile error from a loaded
source, or another exception (e.g. the `ValueError` for an empty name
list). -/
inductive LoadErr where
  | notFound (msg : String)
  | compileE (msg name : String) (lineno : Nat)
  | other (msg : String)
  deriving Repr, DecidableEq

/-- `str(ex)` of a loader failure, as seen when it escapes into a rendering
fragment boundary (`TemplateError.__str__` appends the location suffix). -/
def loadErrStr : LoadErr → String
  | .notFound m => m
  | .compileE m n l => m ++ " [From " ++ n ++ " on line " ++ toString l ++ "]"
  | .other m => m

/-- `DEFAULT_AUTOESCAPE_FUNCTIONS` consulted by `_load_all`: the XML escape
for markup extensions, otherwise Python `None`. -/
def autoescapeFor (templateName : String) : Value :=
  let ext := splitextExt templateName
  if ext = ".xml" || ext = ".xhtml" || ext = ".html" || ext = ".htm" then
    .fn xmlEscape
  else .none

/-- `MemorySource.load_source`: the in-memory template dict lookup. -/
def loadSource : List (String × String) → String → Option String
  | [], _ => Option.none
  | (k, v) :: r, nm => if k = nm then some v else loadSource r nm

/-- The `__super__` default passed by `_load_all`: the previously compiled
template (`templates and templates[-1] or None`). -/
def superOf (acc : List Template) : Value :=
  match acc.getLast? with
  | some t => Value.tmpl t
  | Option.none => Value.none

/-- The source loop of `DebugLoader._load_all`: compile the named template
from every source that has data for it, each compilation receiving the
reserved defaults `__autoescape__`, `__loader__` and `__super__` (the
previously compiled template, if any). -/
def loadAllGo (data : LoaderData) (templateName : String) (autoe : Value)
    (acc : List Template) :
    List (List (String × String)) → Except LoadErr (List Template)
  | [] => .ok acc
  | src :: rest =>
    match loadSource src templateName with
    | Option.none => loadAllGo data templateName autoe acc rest
    | some text =>
      let defaults :=
        [("__autoescape__", autoe), ("__loader__", Value.loaderV data),
         ("__super__", superOf acc)]
      match compileT text templateName defaults (defaultTags ++ loaderTags)
      with
      | .error (.comp m n l) => .error (.compileE m n l)
      | .error (.raw m) => .error (.compileE m templateName 0)
      | .ok t => loadAllGo data templateName autoe (acc ++ [t]) rest

/-- `DebugLoader._load_all(template_name)`. -/
def loadAll (data : LoaderData) (templateName : String) :
    Except LoadErr (List Template) :=
  loadAllGo data templateName (autoescapeFor templateName) [] data

/-- `", ".join(parts)`. -/
def strIntercalate (sep : String) : List String → String
  | [] => ""
  | [x] => x
  | x :: xs => x ++ sep ++ strIntercalate sep xs

/-- The name loop of `DebugLoader.load`: the first name for which some
source has data wins, and of its compilations the last one (`templates[-1]`)
is returned; when no name matches, `TemplateDoesNotExist` lists every tried
name and every source. -/
def loaderLoadGo (data : LoaderData) (allNames : List String) :
    List String → Except LoadErr Template
  | [] =>
    .error (.notFound ("Could not find a template named " ++
      strIntercalate ", " (allNames.map fun n => "'" ++ n ++ "'") ++
      " in any of " ++
      strIntercalate ", " (data.map fun _ => "<memory>") ++ "."))
  | nm :: rest => do
    let ts ← loadAll data nm
    match ts.getLast? with
    | some t => .ok t
    | Option.none => loaderLoadGo data allNames rest

/-- `DebugLoader.load(*template_names)`. -/
def loaderLoad (data : LoaderData) (names : List String) :
    Except LoadErr Template :=
  if names.isEmpty then
    .error (.other "You must specify at least one template name.")
  else loaderLoadGo data names names

/-- Call a value on a string (the autoescape application). -/
def pyCall (v : Value) (s : String) : Except String String :=
  match v with
  | .fn f => .ok (f s)
  | _ => .error ("'" ++ pyTypeName v ++ "' object is not callable")

/-- `loader.get_template(context, template)`: a `Template` value passes
through; a string is resolved through the `__loader__` scope entry. -/
def getTemplate (p : List (String × Value)) (v : Value) :
    Except String Template :=
  match v with
  | .tmpl t => .ok t
  | .str s =>
    (match dictGet p "__loader__" with
     | some (.loaderV data) => (loaderLoad data [s]).mapError loadErrStr
     | some other =>
       .error ("'" ++ pyTypeName other ++ "' object has no attribute 'load'")
     | Option.none =>
       .error ("Cannot load template named '" ++ s ++
         "', as this template was not created by a Loader."))
  | _ => .error ("Expected a Template or a str, found " ++ pyRepr v ++ ".")

mutual
/-- `TemplateFragment._render_to_context`: render each node in turn; a
failure that is already a `TemplateRenderError` is re-raised unchanged, any
other failure is wrapped once with the owning template's name and the
failing node's line number.  Fuel exhaustion surfaces like Python's
`RecursionError`: an ordinary exception wrapped at this boundary. -/
def renderNodes :
    Nat → String → List Node → List (String × Value) → Shared →
    Except RErr (List (String × Value) × Shared)
  | _, _, [], p, sh => .ok (p, sh)
  | 0, fragName, n :: _, _, _ =>
    .error (.renderE "maximum recursion depth exceeded" fragName n.lineno)
  | fuel + 1, fragName, n :: rest, p, sh =>
    (match renderNode fuel n p sh with
     | .error (.raw m) => .error (.renderE m fragName n.lineno)
     | .error e => .error e
     | .ok (p2, sh2) => renderNodes fuel fragName rest p2 sh2)

/-- `Node.render` for each node variant, following `parser.py` (string,
expression, if, for) and `loader.py` (include, block, extends). -/
def renderNode :
    Nat → Node → List (String × Value) → Shared →
    Except RErr (List (String × Value) × Shared)
  | 0, _, _, _ => .error (.raw "maximum recursion depth exceeded")
  | _ + 1, .string _ s, p, sh =>
    .ok (p, { sh with buffer := sh.buffer ++ [s] })
  | _ + 1, .expr _ e, p, sh => do
    -- ExpressionNode.render: evaluate, stringify, apply autoescape if the
    -- reserved entry is truthy, then append to the shared buffer.
    let v ← liftRawR (evalExpr e p)
    let s := pyStr v
    let ae := (dictGet p "__autoescape__").getD Value.none
    let s2 ← if pyTruthy ae then liftRawR (pyCall ae s) else pure s
    .ok (p, { sh with buffer := sh.buffer ++ [s2] })
  | fuel + 1, .ifN _ clauses elseB, p, sh => ifClauses fuel clauses elseB p sh
  | fuel + 1, .forN _ nm e blk, p, sh => do
    -- ForNode.render: evaluate once to an iterable, then bind and render the
    -- body in the *same* context for each item.
    let items ← liftRawR (evalExpr e p)
    let xs ← liftRawR (pyIter items)
    renderForLoop fuel nm blk xs p sh
  | fuel + 1, .includeN _ e, p, sh => do
    -- IncludeNode.render: resolve, then render in a sub-context
    -- (`with context.block()`): copied params, shared buffer.
    let v ← liftRawR (evalExpr e p)
    let t ← liftRawR (getTemplate p v)
    let (_, sh2) ← renderNodes fuel t.name t.nodes p sh
    .ok (p, sh2)
  | fuel + 1, .blockN _ bn blk, p, sh =>
    -- BlockNode.render: `stack = context.params.get("__blocks__", {})
    -- .get(name, []); stack.append(self.block)`; the bottommost (most
    -- derived) entry renders in a sub-context.  The append mutates the
    -- shared per-name list exactly when the name is already present.
    let bm := sh.blocks.getD []
    let stack0 := (bmGet bm bn).getD []
    let sh1 :=
      match sh.blocks with
      | some m =>
        if (bmGet m bn).isSome then
          { sh with blocks := some (bmSet m bn (stack0 ++ [blk])) }
        else sh
      | Option.none => sh
    let bottom := stack0.headD blk
    (do
      let (_, sh2) ← renderNodes fuel bottom.name bottom.nodes p sh1
      .ok (p, sh2))
  | fuel + 1, .extendsN _ e bns, p, sh => do
    -- ExtendsNode.render: resolve the parent template, install this
    -- template's block overrides via `setdefault`/`append`, then render the
    -- parent in a sub-context.
    let v ← liftRawR (evalExpr e p)
    let t ← liftRawR (getTemplate p v)
    let bm0 := sh.blocks.getD []
    let bm1 := bns.foldl (fun m pr => bmAppend m pr.1 pr.2) bm0
    let sh1 := { sh with blocks := some bm1 }
    let (_, sh2) ← renderNodes fuel t.name t.nodes p sh1
    .ok (p, sh2)

/-- The clause loop of `IfNode.render`: evaluate the clause expressions in
order, render the body of the first truthy one (in the same context); if
none is truthy and an else block exists, render it, otherwise do nothing. -/
def ifClauses :
    Nat → List (Expr × Fragment) → Option Fragment →
    List (String × Value) → Shared →
    Except RErr (List (String × Value) × Shared)
  | 0, _, _, _, _ => .error (.raw "maximum recursion depth exceeded")
  | fuel + 1, [], elseB, p, sh =>
    (match elseB with
     | some b => renderNodes fuel b.name b.nodes p sh
     | Option.none => .ok (p, sh))
  | fuel + 1, (ex, blk) :: rest, elseB, p, sh => do
    let v ← liftRawR (evalExpr ex p)
    if pyTruthy v then renderNodes fuel blk.name blk.nodes p sh
    else ifClauses fuel rest elseB p sh

/-- The item loop of `ForNode.render`: `self.name.set(context, item)` then
render the body, both against the enclosing context itself. -/
def renderForLoop :
    Nat → NameT → Fragment → List Value → List (String × Value) → Shared →
    Except RErr (List (String × Value) × Shared)
  | _, _, _, [], p, sh => .ok (p, sh)
  | 0, _, _, _ :: _, _, _ => .error (.raw "maximum recursion depth exceeded")
  | fuel + 1, nm, blk, x :: xs, p, sh => do
    let p1 ← liftRawR (nameSet nm p x)
    let (p2, sh2) ← renderNodes fuel blk.name blk.nodes p1 sh
    renderForLoop fuel nm blk xs p2 sh2
end

mutual
/-- A deep node count, used to pick a render fuel bound. -/
def nodeWeight : Node → Nat
  | .string _ _ => 1
  | .expr _ _ => 1
  | .ifN _ cs els =>
    1 + clausesWeight cs +
      (match els with
       | some b => fragWeight b
       | Option.none => 0)
  | .forN _ _ _ blk => 1 + fragWeight blk
  | .includeN _ _ => 1
  | .blockN _ _ blk => 1 + fragWeight blk
  | .extendsN _ _ bns => 1 + bnsWeight bns

def nodesWeight : List Node → Nat
  | [] => 0
  | n :: r => nodeWeight n + nodesWeight r

def fragWeight : Fragment → Nat
  | .mk ns _ => 1 + nodesWeight ns

def clausesWeight : List (Expr × Fragment) → Nat
  | [] => 0
  | (_, b) :: r => fragWeight b + clausesWeight r

def bnsWeight : List (String × Fragment) → Nat
  | [] => 0
  | (_, b) :: r => fragWeight b + bnsWeight r
end

/-- `"".join(buffer)`. -/
def strConcat : List String → String
  | [] => ""
  | s :: r => s ++ strConcat r

/-- `Template.render(**params)`: scope = defaults overridden by the caller's
params; render into a fresh buffer (no `__blocks__` key) and join it.  The
fuel is a generous bound on interpreter recursion — the source recurses
until the Python stack limit on cyclic inheritance, which fuel exhaustion
mirrors. -/
def renderT (t : Template) (params : List (String × Value)) :
    Except RErr String := do
  let cp := dictUpdate t.defaults params
  let fuel := 1000 * (nodesWeight t.nodes + 1)
  let (_, sh) ← renderNodes fuel t.name t.nodes cp ⟨[], Option.none⟩
  .ok (strConcat sh.buffer)

/-- `moody.parser.default_parser.compile(template).render(**params)`: the
outer `Except` is the compile stage, the inner one the render stage. -/
def parserCompileRender (template : String)
    (params : List (String × Value)) : Except PErr (Except RErr String) :=
  (parserCompile template).map fun t => renderT t params

/-- `DebugLoader.render(*template_names, **params)`. -/
def loaderRender (data : LoaderData) (names : List String)
    (params : List (String × Value)) : Except LoadErr (Except RErr String) :=
  (loaderLoad data names).map fun t => renderT t params

/-! ## Supporting lemmas -/

theorem dictGet_dictSet_self (p : List (String × Value)) (k : String)
    (v : Value) : dictGet (dictSet p k v) k = some v := by
  induction p with
  | nil => simp [dictSet, dictGet]
  | cons kv r ih =>
    obtain ⟨k0, v0⟩ := kv
    by_cases hk : k0 = k
    · simp [dictSet, dictGet, hk]
    · simp [dictSet, dictGet, hk, ih]

theorem dictGet_dictSet_ne (p : List (String × Value)) (k k' : String)
    (v : Value) (hk : k ≠ k') : dictGet (dictSet p k v) k' = dictGet p k' := by
  induction p with
  | nil => simp [dictSet, dictGet, hk]
  | cons kv r ih =>
    obtain ⟨k0, v0⟩ := kv
    by_cases h0 : k0 = k
    · subst h0
      simp [dictSet, dictGet, hk]
    · simp [dictSet, dictGet, h0, ih]

theorem dictSet_dictSet (p : List (String × Value)) (k : String)
    (v w : Value) : dictSet (dictSet p k v) k w = dictSet p k w := by
  induction p with
  | nil => simp [dictSet]
  | cons kv r ih =>
    obtain ⟨k0, v0⟩ := kv
    by_cases h0 : k0 = k
    · simp [dictSet, h0]
    · simp [dictSet, h0, ih]

theorem strConcat_pair (a b : String) : strConcat [a, b] = a ++ b := by
  simp [strConcat, String.append_empty]

theorem strConcat_triple (a b c : String) :
    strConcat [a, b, c] = a ++ (b ++ c) := by
  simp [strConcat, String.append_empty]

/-- Nodes that touch only the buffer, never the scope. -/
def plainNode : Node → Bool
  | .string _ _ => true
  | .expr _ _ => true
  | _ => false


theorem renderNode_expr_eq (f ln : Nat) (e : Expr)
    (p : List (String × Value)) (sh : Shared) :
    renderNode (f + 1) (.expr ln e) p sh =
      match evalExpr e p with
      | .error m => .error (.raw m)
      | .ok v =>
        let ae := (dictGet p "__autoescape__").getD Value.none
        if pyTruthy ae then
          match pyCall ae (pyStr v) with
          | .error m => .error (.raw m)
          | .ok s2 => .ok (p, { sh with buffer := sh.buffer ++ [s2] })
        else .ok (p, { sh with buffer := sh.buffer ++ [pyStr v] }) := by
  rw [renderNode]
  cases hev : evalExpr e p with
  | error m => simp [liftRawR, Except.mapError, bind, Except.bind]
  | ok v =>
    simp only [liftRawR, Except.mapError, bind, Except.bind]
    by_cases hae : pyTruthy ((dictGet p "__autoescape__").getD Value.none) = true
    · simp only [hae, if_true]
      cases hc : pyCall ((dictGet p "__autoescape__").getD Value.none) (pyStr v) with
      | error m => simp
      | ok s2 => simp
    · simp only [Bool.not_eq_true] at hae
      simp only [hae]
      simp [pure, Except.pure]

theorem renderNode_plain {fuel : Nat} {n : Node} {p : List (String × Value)}
    {sh : Shared} {r : List (String × Value) × Shared}
    (hn : plainNode n = true) (h : renderNode fuel n p sh = .ok r) :
    r.1 = p := by
  cases fuel with
  | zero => simp [renderNode] at h
  | succ f =>
    cases n with
    | string ln s =>
      simp [renderNode] at h
      rw [← h]
    | expr ln e =>
      rw [renderNode_expr_eq] at h
      cases hev : evalExpr e p with
      | error m => rw [hev] at h; simp at h
      | ok v =>
        rw [hev] at h
        simp only [] at h
        by_cases hae :
            pyTruthy ((dictGet p "__autoescape__").getD Value.none) = true
        · rw [if_pos hae] at h
          cases hc : pyCall ((dictGet p "__autoescape__").getD Value.none)
              (pyStr v) with
          | error m => rw [hc] at h; simp at h
          | ok s2 =>
            rw [hc] at h
            simp at h
            rw [← h]
        · rw [if_neg hae] at h
          simp at h
          rw [← h]
    | ifN ln cs els => simp [plainNode] at hn
    | forN ln nm e blk => simp [plainNode] at hn
    | includeN ln e => simp [plainNode] at hn
    | blockN ln bn blk => simp [plainNode] at hn
    | extendsN ln e bns => simp [plainNode] at hn

theorem renderNodes_plain :
    ∀ (fuel : Nat) (fragName : String) (ns : List Node)
      (p : List (String × Value)) (sh : Shared)
      (r : List (String × Value) × Shared),
      (∀ n ∈ ns, plainNode n = true) →
      renderNodes fuel fragName ns p sh = .ok r → r.1 = p := by
  intro fuel
  induction fuel with
  | zero =>
    intro fragName ns p sh r hns h
    cases ns with
    | nil => simp [renderNodes] at h; rw [← h]
    | cons n rest => simp [renderNodes] at h
  | succ f ih =>
    intro fragName ns p sh r hns h
    cases ns with
    | nil => simp [renderNodes] at h; rw [← h]
    | cons n rest =>
      rw [renderNodes] at h
      cases hr : renderNode f n p sh with
      | error e => rw [hr] at h; cases e <;> simp at h
      | ok pr =>
        rw [hr] at h
        simp only [] at h
        have h1 : pr.1 = p := renderNode_plain (hns n (by simp)) hr
        have h2 : r.1 = pr.1 :=
          ih fragName rest pr.1 pr.2 r (fun m hm => hns m (by simp [hm])) h
        rw [h2, h1]

theorem nameSet_single (s : String) (p : List (String × Value)) (v : Value) :
    nameSet ⟨[s], false⟩ p v = .ok (dictSet p s v) := by
  simp [nameSet]

theorem renderForLoop_leak :
    ∀ (xs : List Value) (fuel : Nat) (s : String) (blk : Fragment)
      (p : List (String × Value)) (sh : Shared)
      (r : List (String × Value) × Shared) (last : Value),
      (∀ n ∈ blk.nodes, plainNode n = true) →
      xs.getLast? = some last →
      renderForLoop fuel ⟨[s], false⟩ blk xs p sh = .ok r →
      r.1 = dictSet p s last := by
  intro xs
  induction xs with
  | nil =>
    intro fuel s blk p sh r last hplain hlast h
    simp at hlast
  | cons x rest ih =>
    intro fuel s blk p sh r last hplain hlast h
    cases fuel with
    | zero => simp [renderForLoop] at h
    | succ f =>
      rw [renderForLoop] at h
      rw [nameSet_single] at h
      simp only [liftRawR, Except.mapError, bind, Except.bind] at h
      cases hb : renderNodes f blk.name blk.nodes (dictSet p s x) sh with
      | error e => rw [hb] at h; simp at h
      | ok pr =>
        rw [hb] at h
        simp only [] at h
        have hpr : pr.1 = dictSet p s x := renderNodes_plain _ _ _ _ _ _ hplain hb
        cases rest with
        | nil =>
          simp at hlast
          subst hlast
          cases f with
          | zero =>
            simp [renderForLoop] at h
            rw [← h, hpr]
          | succ f2 =>
            simp [renderForLoop] at h
            rw [← h, hpr]
        | cons y ys =>
          rw [List.getLast?_cons_cons] at hlast
          have := ih f s blk pr.1 pr.2 r last hplain hlast h
          rw [this, hpr, dictSet_dictSet]


/-! ## Claim C1: three-level template inheritance -/

/-- The parent template of the inheritance chain:
`"<a>{% block name %}<w>{% endblock %}"`. -/
def c1Parent (a w : String) : Template :=
  Template.mk
    [.string 1 a, .blockN 1 "name" (Fragment.mk [.string 1 w] "parent.txt")]
    "parent.txt" []

/-- The child's override of block `name`, declaring the nested block
`surname`: `"<dv>{% block surname %}<hl>{% endblock %}"`. -/
def c1ChildName (dv hl : String) : Fragment :=
  Fragment.mk
    [.string 1 dv,
     .blockN 1 "surname" (Fragment.mk [.string 1 hl] "child.txt")]
    "child.txt"

/-- The child template: extends the parent, overriding block `name`. -/
def c1Child (a w dv hl : String) : Template :=
  Template.mk
    [.extendsN 1 (.lit (.tmpl (c1Parent a w))) [("name", c1ChildName dv hl)]]
    "child.txt" []

/-- The grandchild template: extends the child, overriding the nested block
`surname`. -/
def c1Grandchild (a w dv hl fo : String) : Template :=
  Template.mk
    [.extendsN 1 (.lit (.tmpl (c1Child a w dv hl)))
      [("surname", Fragment.mk [.string 1 fo] "grandchild.txt")]]
    "grandchild.txt" []

/-- C1: for every extends chain of depth three — parent declaring block
`name` (body `w`) after literal text `a`, child extending the parent and
overriding `name` with a body (`dv` followed by a nested block `surname`
with body `hl`), grandchild extending the child and overriding `surname`
with body `fo` — rendering the parent alone yields the parent's own block
body (`a ++ w`), rendering the child yields the child's override
(`a ++ dv ++ hl`), and rendering the grandchild yields the child's `name`
body with the grandchild's `surname` override substituted inside it
(`a ++ dv ++ fo`); a block with no override anywhere in the chain renders
its own body as written (the parent's `name`, and `surname` in the child
render).  Instantiating `a := "Hello "`, `w := "world"`, `dv := "Dave "`,
`hl := "Hall"`, `fo := "Foo"` gives parent → `"Hello world"`, child →
`"Hello Dave Hall"`, grandchild → `"Hello Dave Foo"`. -/
theorem c1_inheritance_three_level (a w dv hl fo : String) :
    renderT (c1Parent a w) [] = .ok (a ++ w) ∧
      renderT (c1Child a w dv hl) [] = .ok (a ++ (dv ++ hl)) ∧
      renderT (c1Grandchild a w dv hl fo) [] = .ok (a ++ (dv ++ fo)) := by
  refine ⟨?_, ?_, ?_⟩
  · have h : renderT (c1Parent a w) [] = .ok (strConcat [a, w]) := rfl
    rw [h, strConcat_pair]
  · have h : renderT (c1Child a w dv hl) [] = .ok (strConcat [a, dv, hl]) :=
      rfl
    rw [h, strConcat_triple]
  · have h : renderT (c1Grandchild a w dv hl fo) [] =
        .ok (strConcat [a, dv, fo]) := rfl
    rw [h, strConcat_triple]

/-! ## Claim C2: the for-loop variable leaks into the enclosing scope -/

/-- C2 counterexample: the claim says rendering `{{n}}` after the loop with
no caller-supplied `n` raises an undefined-name error, and with a
caller-supplied `n` yields the outer value.  In fact
`{% for n in [0,1,2] %}{{n}}{% endfor %}{{n}}` renders `"0122"` — no error,
and the trailing `{{n}}` shows the last iteration's value `2`, not the
caller-supplied `"outer"`. -/
theorem c2_counterexample :
    parserCompileRender
        "\x7b% for n in [0,1,2] %\x7d\x7b\x7bn\x7d\x7d\x7b% endfor %\x7d\x7b\x7bn\x7d\x7d"
        [] = .ok (.ok "0122") ∧
      parserCompileRender
        "\x7b% for n in [0,1,2] %\x7d\x7b\x7bn\x7d\x7d\x7b% endfor %\x7d\x7b\x7bn\x7d\x7d"
        [("n", .str "outer")] = .ok (.ok "0122") ∧
      ("0122" : String) ≠ "outer" :=
  ⟨rfl, rfl, by decide⟩

/-- C2 (amended): `ForNode.render` binds the loop variable directly in the
enclosing context (`self.name.set(context, item)`), not in a fresh child
scope.  For a single-name loop over a non-empty list whose body touches only
the buffer, after the loop the enclosing scope maps the loop variable to the
*last* item: evaluating the variable's name after the loop succeeds and
yields the last iteration's value, overwriting any caller-supplied
binding. -/
theorem c2_loop_variable_leaks
    (fuel ln : Nat) (s : String) (blk : Fragment) (e : Expr)
    (xs : List Value) (p : List (String × Value)) (sh : Shared)
    (r : List (String × Value) × Shared) (last : Value)
    (hplain : ∀ n ∈ blk.nodes, plainNode n = true)
    (hev : evalExpr e p = .ok (.list xs))
    (hlast : xs.getLast? = some last)
    (h : renderNode (fuel + 1) (.forN ln ⟨[s], false⟩ e blk) p sh = .ok r) :
    r.1 = dictSet p s last ∧ dictGet r.1 s = some last ∧
      evalExpr (.name s) r.1 = .ok last := by
  rw [renderNode] at h
  rw [hev] at h
  simp only [liftRawR, Except.mapError, bind, Except.bind, pyIter] at h
  have h1 : r.1 = dictSet p s last :=
    renderForLoop_leak xs fuel s blk p sh r last hplain hlast h
  have h2 : dictGet r.1 s = some last := by
    rw [h1]
    exact dictGet_dictSet_self _ _ _
  refine ⟨h1, h2, ?_⟩
  simp [evalExpr, h2]

theorem c2_loop_variable_leaks_witness :
    dictGet [("n", Value.int 0)] "n" = some (.int 0) ∧
      evalExpr (.name "n") [("n", Value.int 0)] = .ok (.int 0) := by
  have h := c2_loop_variable_leaks 10 1 "n" (Fragment.mk [] "t")
    (.lit (.list [.int 0])) [.int 0] [] ⟨[], Option.none⟩
    ([("n", Value.int 0)], ⟨[], Option.none⟩) (.int 0)
    (by intro n hn; simp [Fragment.nodes] at hn) rfl rfl rfl
  exact ⟨h.2.1, h.2.2⟩

/-! ## Claim C7: expression rendering and autoescape -/

/-- C7: for every expression placeholder and scope, rendering appends
`str(eval(expr))` to the output buffer; if the reserved `__autoescape__`
scope entry holds a function, that function is applied after
stringification and before the append, and the escaped result is what
reaches the buffer.  (When the entry is absent or falsy, the plain
stringification is appended.) -/
theorem c7_expression_autoescape :
    (∀ (fuel ln : Nat) (e : Expr) (p : List (String × Value)) (sh : Shared)
       (v : Value),
       evalExpr e p = .ok v →
       pyTruthy ((dictGet p "__autoescape__").getD Value.none) = false →
       renderNode (fuel + 1) (.expr ln e) p sh =
         .ok (p, { sh with buffer := sh.buffer ++ [pyStr v] })) ∧
    (∀ (fuel ln : Nat) (e : Expr) (p : List (String × Value)) (sh : Shared)
       (v : Value) (f : String → String),
       evalExpr e p = .ok v →
       dictGet p "__autoescape__" = some (.fn f) →
       renderNode (fuel + 1) (.expr ln e) p sh =
         .ok (p, { sh with buffer := sh.buffer ++ [f (pyStr v)] })) := by
  constructor
  · intro fuel ln e p sh v hev hae
    rw [renderNode_expr_eq, hev]
    simp [hae]
  · intro fuel ln e p sh v f hev hae
    rw [renderNode_expr_eq, hev]
    simp [hae, pyTruthy, pyCall]

theorem c7_expression_autoescape_witness :
    renderNode 1 (.expr 1 (.lit (.str "hi"))) [] ⟨[], Option.none⟩ =
        .ok ([], ⟨["hi"], Option.none⟩) ∧
      renderNode 1 (.expr 1 (.lit (.str "hi")))
          [("__autoescape__", .fn (fun s => s ++ "!"))] ⟨[], Option.none⟩ =
        .ok ([("__autoescape__", .fn (fun s => s ++ "!"))],
          ⟨["hi" ++ "!"], Option.none⟩) := by
  constructor
  · exact c7_expression_autoescape.1 0 1 (.lit (.str "hi")) []
      ⟨[], Option.none⟩ (.str "hi") rfl rfl
  · exact c7_expression_autoescape.2 0 1 (.lit (.str "hi"))
      [("__autoescape__", .fn (fun s => s ++ "!"))] ⟨[], Option.none⟩
      (.str "hi") (fun s => s ++ "!") rfl rfl

/-! ## Claim C9: render failures are annotated exactly once -/

/-- Every failure escaping a fragment boundary is an annotated
`TemplateRenderError`. -/
theorem renderNodes_error_located :
    ∀ (fuel : Nat) (fragName : String) (ns : List Node)
      (p : List (String × Value)) (sh : Shared) (e : RErr),
      renderNodes fuel fragName ns p sh = .error e →
      ∃ m nm ln, e = .renderE m nm ln := by
  intro fuel
  induction fuel with
  | zero =>
    intro fragName ns p sh e h
    cases ns with
    | nil => simp [renderNodes] at h
    | cons n rest =>
      simp [renderNodes] at h
      exact ⟨_, _, _, h.symm⟩
  | succ f ih =>
    intro fragName ns p sh e h
    cases ns with
    | nil => simp [renderNodes] at h
    | cons n rest =>
      rw [renderNodes] at h
      cases hr : renderNode f n p sh with
      | error e2 =>
        rw [hr] at h
        cases e2 with
        | raw m => simp at h; exact ⟨_, _, _, h.symm⟩
        | renderE m nm ln => simp at h; exact ⟨_, _, _, h.symm⟩
      | ok pr =>
        rw [hr] at h
        simp only [] at h
        exact ih fragName rest pr.1 pr.2 e h


/-- C9: every failure raised by a node during rendering reaches the caller
of `render` as a `TemplateRenderError` annotated with the owning template's
name and the failing node's source line, and the annotation is applied at
most once: a failure that is already an annotated render error propagates
through every enclosing fragment boundary unchanged (second conjunct), a
plain failure is wrapped with the current fragment's name and the node's
line (third conjunct), and every error escaping a fragment or a top-level
`Template.render` is of the annotated form (first and fourth conjuncts). -/
theorem c9_render_error_annotated_once :
    (∀ (fuel : Nat) (fragName : String) (ns : List Node)
       (p : List (String × Value)) (sh : Shared) (e : RErr),
       renderNodes fuel fragName ns p sh = .error e →
       ∃ m nm ln, e = .renderE m nm ln) ∧
    (∀ (fuel : Nat) (fragName : String) (n : Node) (rest : List Node)
       (p : List (String × Value)) (sh : Shared) (m nm : String) (ln : Nat),
       renderNode fuel n p sh = .error (.renderE m nm ln) →
       renderNodes (fuel + 1) fragName (n :: rest) p sh =
         .error (.renderE m nm ln)) ∧
    (∀ (fuel : Nat) (fragName : String) (n : Node) (rest : List Node)
       (p : List (String × Value)) (sh : Shared) (m : String),
       renderNode fuel n p sh = .error (.raw m) →
       renderNodes (fuel + 1) fragName (n :: rest) p sh =
         .error (.renderE m fragName n.lineno)) ∧
    (∀ (t : Template) (params : List (String × Value)) (e : RErr),
       renderT t params = .error e → ∃ m nm ln, e = .renderE m nm ln) := by
  refine ⟨renderNodes_error_located, ?_, ?_, ?_⟩
  · intro fuel fragName n rest p sh m nm ln h
    rw [renderNodes, h]
  · intro fuel fragName n rest p sh m h
    rw [renderNodes, h]
  · intro t params e h
    rw [renderT] at h
    simp only [bind, Except.bind] at h
    cases hr : renderNodes (1000 * (nodesWeight t.nodes + 1)) t.name t.nodes
        (dictUpdate t.defaults params) ⟨[], Option.none⟩ with
    | error e2 =>
      rw [hr] at h
      simp at h
      rw [← h]
      exact renderNodes_error_located _ _ _ _ _ _ hr
    | ok pr =>
      rw [hr] at h
      simp at h

theorem c9_render_error_annotated_once_witness :
    renderNodes 2 "tpl" [.expr 5 (.name "x")] [] ⟨[], Option.none⟩ =
        .error (.renderE "name 'x' is not defined" "tpl" 5) ∧
      renderNodes 11 "outer"
          [.ifN 9 [(.lit (.bool true), Fragment.mk [.expr 5 (.name "x")] "inner")]
            Option.none] [] ⟨[], Option.none⟩ =
        .error (.renderE "name 'x' is not defined" "inner" 5) :=
  ⟨c9_render_error_annotated_once.2.2.1 1 "tpl" (.expr 5 (.name "x")) [] []
      ⟨[], Option.none⟩ "name 'x' is not defined" rfl,
    c9_render_error_annotated_once.2.1 10 "outer"
      (.ifN 9 [(.lit (.bool true), Fragment.mk [.expr 5 (.name "x")] "inner")]
        Option.none) [] [] ⟨[], Option.none⟩ "name 'x' is not defined" "inner"
      5 rfl⟩

/-! ## Claim C4: if/elif/else clause selection -/

/-- Skipping a prefix of clauses whose expressions evaluate to falsy
values. -/
theorem ifClauses_skip :
    ∀ (pre : List (Expr × Fragment)) (fuel : Nat)
      (rest : List (Expr × Fragment)) (els : Option Fragment)
      (p : List (String × Value)) (sh : Shared),
      (∀ c ∈ pre, ∃ v, evalExpr c.1 p = .ok v ∧ pyTruthy v = false) →
      ifClauses (fuel + pre.length) (pre ++ rest) els p sh =
        ifClauses fuel rest els p sh := by
  intro pre
  induction pre with
  | nil => intro fuel rest els p sh hpre; simp
  | cons c cs ih =>
    intro fuel rest els p sh hpre
    obtain ⟨v, hv, hfv⟩ := hpre c (by simp)
    have hlen : fuel + (c :: cs).length = (fuel + cs.length) + 1 := by
      simp [List.length_cons]
      omega
    rw [hlen]
    rw [List.cons_append, ifClauses, hv]
    simp only [liftRawR, Except.mapError, bind, Except.bind, hfv]
    simp only [Bool.false_eq_true, if_false]
    exact ih fuel rest els p sh (fun c2 h2 => hpre c2 (by simp [h2]))


/-- C4: for every compiled `if`/`elif`/`else` chain and every scope, the
clause expressions are evaluated top-to-bottom and exactly the body of the
first truthy clause is rendered (first conjunct, with an arbitrary falsy
prefix and arbitrary remaining clauses); if no clause is truthy and an
`else` body exists, the `else` body is rendered (second conjunct); if no
clause is truthy and there is no `else`, the construct contributes empty
output and leaves the state unchanged (third conjunct).  The spec's example
`{% if a=='x' %}X{% elif a=='y' %}Y{% else %}Z{% endif %}` with `a='y'`
renders `"Y"` (fourth conjunct). -/
theorem c4_if_first_truthy_clause :
    (∀ (fuel ln : Nat) (pre : List (Expr × Fragment)) (ei : Expr)
       (bi : Fragment) (post : List (Expr × Fragment))
       (els : Option Fragment) (p : List (String × Value)) (sh : Shared)
       (vi : Value),
       (∀ c ∈ pre, ∃ v, evalExpr c.1 p = .ok v ∧ pyTruthy v = false) →
       evalExpr ei p = .ok vi → pyTruthy vi = true →
       renderNode (fuel + pre.length + 2)
           (.ifN ln (pre ++ (ei, bi) :: post) els) p sh =
         renderNodes fuel bi.name bi.nodes p sh) ∧
    (∀ (fuel ln : Nat) (cs : List (Expr × Fragment)) (b : Fragment)
       (p : List (String × Value)) (sh : Shared),
       (∀ c ∈ cs, ∃ v, evalExpr c.1 p = .ok v ∧ pyTruthy v = false) →
       renderNode (fuel + cs.length + 2) (.ifN ln cs (some b)) p sh =
         renderNodes fuel b.name b.nodes p sh) ∧
    (∀ (fuel ln : Nat) (cs : List (Expr × Fragment))
       (p : List (String × Value)) (sh : Shared),
       (∀ c ∈ cs, ∃ v, evalExpr c.1 p = .ok v ∧ pyTruthy v = false) →
       renderNode (fuel + cs.length + 2) (.ifN ln cs Option.none) p sh =
         .ok (p, sh)) ∧
    parserCompileRender
        "\x7b% if a=='x' %\x7dX\x7b% elif a=='y' %\x7dY\x7b% else %\x7dZ\x7b% endif %\x7d"
        [("a", .str "y")] = .ok (.ok "Y") := by
  refine ⟨?_, ?_, ?_, rfl⟩
  · intro fuel ln pre ei bi post els p sh vi hpre hei hvi
    have h1 : fuel + pre.length + 2 = ((fuel + 1) + pre.length) + 1 := by omega
    rw [h1, renderNode]
    rw [ifClauses_skip pre (fuel + 1) ((ei, bi) :: post) els p sh hpre]
    rw [ifClauses, hei]
    simp [liftRawR, Except.mapError, bind, Except.bind, hvi]
  · intro fuel ln cs b p sh hcs
    have h1 : fuel + cs.length + 2 = ((fuel + 1) + cs.length) + 1 := by omega
    have h3 := ifClauses_skip cs (fuel + 1) [] (some b) p sh hcs
    rw [List.append_nil] at h3
    rw [h1, renderNode, h3, ifClauses]
  · intro fuel ln cs p sh hcs
    have h1 : fuel + cs.length + 2 = ((fuel + 1) + cs.length) + 1 := by omega
    have h3 := ifClauses_skip cs (fuel + 1) [] Option.none p sh hcs
    rw [List.append_nil] at h3
    rw [h1, renderNode, h3, ifClauses]

theorem c4_if_first_truthy_clause_witness :
    renderNode 6
        (.ifN 1 [(.lit (.bool false), Fragment.mk [.string 1 "X"] "t"),
                 (.lit (.bool true), Fragment.mk [.string 1 "Y"] "t")]
          Option.none) [] ⟨[], Option.none⟩ =
      renderNodes 3 "t" [.string 1 "Y"] [] ⟨[], Option.none⟩ :=
  c4_if_first_truthy_clause.1 3 1
    [(.lit (.bool false), Fragment.mk [.string 1 "X"] "t")]
    (.lit (.bool true)) (Fragment.mk [.string 1 "Y"] "t") [] Option.none []
    ⟨[], Option.none⟩ (.bool true)
    (by
      intro c hc
      simp at hc
      rw [hc]
      exact ⟨.bool false, rfl, rfl⟩)
    rfl rfl

/-! ## Claim C6: strict destructuring arity -/

theorem nameSetExpand_eq :
    ∀ (names : List String) (xs : List Value) (total : Nat)
      (p : List (String × Value)),
      xs.length = names.length →
      nameSetExpand total names xs p =
        .ok ((names.zip xs).foldl (fun q pr => dictSet q pr.1 pr.2) p) := by
  intro names
  induction names with
  | nil =>
    intro xs total p hlen
    cases xs with
    | nil => simp [nameSetExpand]
    | cons x xs2 => simp at hlen
  | cons n ns ih =>
    intro xs total p hlen
    cases xs with
    | nil => simp at hlen
    | cons x xs2 =>
      simp at hlen
      rw [nameSetExpand]
      rw [ih xs2 total (dictSet p n x) hlen]
      simp [List.zip_cons_cons]

theorem nameSetExpand_short :
    ∀ (names : List String) (xs : List Value) (total : Nat)
      (p : List (String × Value)),
      xs.length < names.length →
      nameSetExpand total names xs p = .error "Not enough values to unpack." := by
  intro names
  induction names with
  | nil => intro xs total p hlen; simp at hlen
  | cons n ns ih =>
    intro xs total p hlen
    cases xs with
    | nil => rw [nameSetExpand]
    | cons x xs2 =>
      simp at hlen
      rw [nameSetExpand]
      exact ih xs2 total (dictSet p n x) hlen

theorem nameSetExpand_long :
    ∀ (names : List String) (xs : List Value) (total : Nat)
      (p : List (String × Value)),
      names.length < xs.length →
      nameSetExpand total names xs p =
        .error ("Need more that " ++ toString total ++ " values to unpack.") := by
  intro names
  induction names with
  | nil =>
    intro xs total p hlen
    cases xs with
    | nil => simp at hlen
    | cons x xs2 => rw [nameSetExpand]
  | cons n ns ih =>
    intro xs total p hlen
    cases xs with
    | nil => simp at hlen
    | cons x xs2 =>
      simp at hlen
      rw [nameSetExpand]
      exact ih xs2 total (dictSet p n x) hlen

theorem dictGet_fold_of_not_mem :
    ∀ (l : List (String × Value)) (p : List (String × Value)) (k : String),
      (∀ pr ∈ l, pr.1 ≠ k) →
      dictGet (l.foldl (fun q pr => dictSet q pr.1 pr.2) p) k = dictGet p k := by
  intro l
  induction l with
  | nil => intro p k h; simp
  | cons pr rest ih =>
    intro p k h
    simp only [List.foldl_cons]
    rw [ih (dictSet p pr.1 pr.2) k (fun q hq => h q (by simp [hq]))]
    exact dictGet_dictSet_ne p pr.1 k pr.2 (h pr (by simp))

theorem nameSet_positional :
    ∀ (names : List String) (xs : List Value) (p : List (String × Value))
      (hnd : names.Nodup) (hlen : xs.length = names.length)
      (i : Nat) (hi : i < names.length),
      dictGet ((names.zip xs).foldl (fun q pr => dictSet q pr.1 pr.2) p)
          (names.get ⟨i, hi⟩) =
        some (xs.get ⟨i, by omega⟩) := by
  intro names
  induction names with
  | nil => intro xs p _hnd _hlen i hi; simp at hi
  | cons n ns ih =>
    intro xs p hnd hlen i hi
    cases xs with
    | nil => simp at hlen
    | cons x xs2 =>
      simp at hlen
      simp only [List.zip_cons_cons, List.foldl_cons]
      cases i with
      | zero =>
        simp only [List.get]
        rw [dictGet_fold_of_not_mem]
        · exact dictGet_dictSet_self p n x
        · intro pr hpr
          have h1 : pr.1 ∈ ns := (List.of_mem_zip hpr).1
          have h2 := (List.nodup_cons.mp hnd).1
          intro hc
          rw [hc] at h1
          exact h2 h1
      | succ i2 =>
        simp only [List.get]
        exact ih xs2 (dictSet p n x) (List.nodup_cons.mp hnd).2 hlen i2
          (by simpa using hi)


/-- C6: for every destructuring binding target of n ≥ 2 names, applying it
to a value succeeds and binds the names positionally exactly when the value
yields exactly n items (first and second conjuncts); it fails with a render
error when the value yields fewer than n items, and with a distinct-message
render error when it yields more — never silent truncation.  The end-to-end
conjuncts show `for a,b in [[1,2]]` binding a=1, b=2, while `[[1]]` and
`[[1,2,3]]` each fail with a `TemplateRenderError` carrying the two distinct
messages. -/
theorem c6_destructuring_strict_arity :
    (∀ (names : List String) (xs : List Value) (p : List (String × Value)),
       2 ≤ names.length →
       (xs.length = names.length →
          nameSet ⟨names, true⟩ p (.list xs) =
            .ok ((names.zip xs).foldl (fun q pr => dictSet q pr.1 pr.2) p)) ∧
       (xs.length < names.length →
          nameSet ⟨names, true⟩ p (.list xs) =
            .error "Not enough values to unpack.") ∧
       (names.length < xs.length →
          nameSet ⟨names, true⟩ p (.list xs) =
            .error ("Need more that " ++ toString names.length ++
              " values to unpack."))) ∧
    (∀ (names : List String) (xs : List Value) (p q : List (String × Value))
       (hnd : names.Nodup) (hlen : xs.length = names.length),
       nameSet ⟨names, true⟩ p (.list xs) = .ok q →
       ∀ (i : Nat) (hi : i < names.length),
         dictGet q (names.get ⟨i, hi⟩) = some (xs.get ⟨i, by omega⟩)) ∧
    parserCompileRender
        "\x7b% for a,b in v %\x7d\x7b\x7ba\x7d\x7d\x7b\x7bb\x7d\x7d\x7b% endfor %\x7d"
        [("v", .list [.list [.int 1, .int 2]])] = .ok (.ok "12") ∧
    parserCompileRender
        "\x7b% for a,b in v %\x7d\x7b\x7ba\x7d\x7d\x7b\x7bb\x7d\x7d\x7b% endfor %\x7d"
        [("v", .list [.list [.int 1]])] =
      .ok (.error (.renderE "Not enough values to unpack." "<string>" 1)) ∧
    parserCompileRender
        "\x7b% for a,b in v %\x7d\x7b\x7ba\x7d\x7d\x7b\x7bb\x7d\x7d\x7b% endfor %\x7d"
        [("v", .list [.list [.int 1, .int 2, .int 3]])] =
      .ok (.error
        (.renderE "Need more that 2 values to unpack." "<string>" 1)) ∧
    ("Not enough values to unpack." : String) ≠
      "Need more that 2 values to unpack." := by
  refine ⟨?_, ?_, rfl, rfl, rfl, by decide⟩
  · intro names xs p _
    refine ⟨?_, ?_, ?_⟩
    · intro hlen
      simp only [nameSet, pyIter, if_true, bind, Except.bind]
      rw [nameSetExpand_eq names xs names.length p hlen]
    · intro hlen
      simp only [nameSet, pyIter, if_true, bind, Except.bind]
      rw [nameSetExpand_short names xs names.length p hlen]
    · intro hlen
      simp only [nameSet, pyIter, if_true, bind, Except.bind]
      rw [nameSetExpand_long names xs names.length p hlen]
  · intro names xs p q hnd hlen hset i hi
    have heq : nameSet ⟨names, true⟩ p (.list xs) =
        .ok ((names.zip xs).foldl (fun q pr => dictSet q pr.1 pr.2) p) := by
      simp only [nameSet, pyIter, if_true, bind, Except.bind]
      rw [nameSetExpand_eq names xs names.length p hlen]
    rw [heq] at hset
    injection hset with hq
    rw [← hq]
    exact nameSet_positional names xs p hnd hlen i hi

theorem c6_destructuring_strict_arity_witness :
    nameSet ⟨["a", "b"], true⟩ [] (.list [.int 1, .int 2]) =
        .ok [("a", Value.int 1), ("b", Value.int 2)] ∧
      nameSet ⟨["a", "b"], true⟩ [] (.list [.int 1]) =
        .error "Not enough values to unpack." ∧
      nameSet ⟨["a", "b"], true⟩ [] (.list [.int 1, .int 2, .int 3]) =
        .error "Need more that 2 values to unpack." :=
  ⟨(c6_destructuring_strict_arity.1 ["a", "b"] [.int 1, .int 2] []
      (by decide)).1 rfl,
    (c6_destructuring_strict_arity.1 ["a", "b"] [.int 1] []
      (by decide)).2.1 (by decide),
    (c6_destructuring_strict_arity.1 ["a", "b"] [.int 1, .int 2, .int 3] []
      (by decide)).2.2 (by decide)⟩

/-! ## Tokenizer and parser lemmas for the literal-text claims -/

theorem strMk_data (s : String) : String.mk s.data = s := rfl

theorem matchAt_none_not_brace (c : Char) (cs : List Char) (hc : c ≠ '{') :
    matchAt (c :: cs) = Option.none := by
  cases cs with
  | nil => rfl
  | cons c2 rest => simp [matchAt, matchAt2, hc]

theorem scanTok_append_clean :
    ∀ (pre cs : List Char), (∀ c ∈ pre, c ≠ '{') →
      scanTok (pre ++ cs) =
        (scanTok cs).map fun pr => (pre ++ pr.1, pr.2.1, pr.2.2) := by
  intro pre
  induction pre with
  | nil =>
    intro cs _
    cases h : scanTok cs with
    | none => simp [h]
    | some pr => simp [h]
  | cons c pre2 ih =>
    intro cs hpre
    rw [List.cons_append, scanTok]
    rw [matchAt_none_not_brace c (pre2 ++ cs) (hpre c (by simp))]
    rw [ih cs (fun c2 h2 => hpre c2 (by simp [h2]))]
    cases h : scanTok cs with
    | none => simp
    | some pr => simp

theorem scanTok_none_clean :
    ∀ (cs : List Char), (∀ c ∈ cs, c ≠ '{') → scanTok cs = Option.none := by
  intro cs
  induction cs with
  | nil => intro _; rfl
  | cons c rest ih =>
    intro hcs
    rw [scanTok, matchAt_none_not_brace c rest (hcs c (by simp))]
    rw [ih (fun c2 h2 => hcs c2 (by simp [h2]))]

theorem lineToksF_clean (ln fuel : Nat) (cs : List Char)
    (hcs : ∀ c ∈ cs, c ≠ '{') :
    lineToksF ln fuel cs = [(ln, .str, String.mk cs)] := by
  cases fuel with
  | zero => rfl
  | succ f => rw [lineToksF, scanTok_none_clean cs hcs]

theorem lineToksF_step (ln fuel : Nat) (cs pre : List Char) (t : RawTok)
    (after : List Char) (h : scanTok cs = some (pre, t, after)) :
    lineToksF ln (fuel + 1) cs =
      (if pre ≠ [] then [(ln, .str, String.mk pre)] else []) ++
        tokOf ln t ++ lineToksF ln fuel after := by
  rw [lineToksF, h]

theorem splitlines_single :
    ∀ (cs : List Char), cs ≠ [] → (∀ c ∈ cs, c ≠ '\n') →
      splitlinesKeep cs = [cs] := by
  intro cs
  induction cs with
  | nil => intro h _; simp at h
  | cons c rest ih =>
    intro _ hnl
    rw [splitlinesKeep]
    rw [if_neg (hnl c (by simp))]
    cases hr : rest with
    | nil => simp [splitlinesKeep]
    | cons c2 rest2 =>
      rw [← hr, ih (by simp [hr]) (fun c3 h3 => hnl c3 (by simp [h3]))]

theorem splitlines_join :
    ∀ (cs : List Char), (splitlinesKeep cs).flatten = cs := by
  intro cs
  induction cs with
  | nil => rfl
  | cons c rest ih =>
    rw [splitlinesKeep]
    by_cases hc : c = '\n'
    · rw [if_pos hc, List.flatten_cons, hc]
      rw [ih]
      simp
    · rw [if_neg hc]
      cases hs : splitlinesKeep rest with
      | nil =>
        rw [hs] at ih
        simp at ih
        simp [ih]
      | cons l ls =>
        rw [hs] at ih
        rw [List.flatten_cons] at ih
        rw [List.flatten_cons, List.cons_append, ih]

/-- No two-character delimiter opener occurs anywhere in the text. -/
def noOpener : List Char → Bool
  | [] => true
  | [_] => true
  | x :: y :: rest =>
    !(x = '{' && (y = '{' || y = '%' || y = '#')) && noOpener (y :: rest)

theorem noOpener_tail {x : Char} {cs : List Char}
    (h : noOpener (x :: cs) = true) : noOpener cs = true := by
  cases cs with
  | nil => rfl
  | cons y rest =>
    rw [noOpener] at h
    exact ((Bool.and_eq_true _ _).mp h).2

theorem matchAt_none_noOp {cs : List Char} (h : noOpener cs = true) :
    matchAt cs = Option.none := by
  cases cs with
  | nil => rfl
  | cons c1 cs1 =>
    cases cs1 with
    | nil => rfl
    | cons c2 rest =>
      rw [noOpener] at h
      have h1 := ((Bool.and_eq_true _ _).mp h).1
      rw [matchAt, matchAt2.eq_def]
      split_ifs with hA hB hC
      · exfalso; rw [hA.1, hA.2] at h1; simp at h1
      · exfalso; rw [hB.1, hB.2] at h1; simp at h1
      · exfalso; rw [hC.1, hC.2] at h1; simp at h1
      · rfl

theorem scanTok_none_noOp :
    ∀ {cs : List Char}, noOpener cs = true → scanTok cs = Option.none := by
  intro cs
  induction cs with
  | nil => intro _; rfl
  | cons c rest ih =>
    intro h
    rw [scanTok, matchAt_none_noOp h, ih (noOpener_tail h)]

theorem noOpener_append_left :
    ∀ {a b : List Char}, noOpener (a ++ b) = true → noOpener a = true := by
  intro a
  induction a with
  | nil => intro b _; rfl
  | cons x a2 ih =>
    intro b h
    cases a2 with
    | nil => rfl
    | cons y a3 =>
      rw [List.cons_append] at h
      rw [noOpener]
      rw [List.cons_append, noOpener] at h
      obtain ⟨h1, h2⟩ := (Bool.and_eq_true _ _).mp h
      rw [h1]
      rw [← List.cons_append] at h2
      rw [ih h2]
      rfl

theorem splitlines_noOp :
    ∀ (cs : List Char), noOpener cs = true →
      ∀ l ∈ splitlinesKeep cs, noOpener l = true := by
  intro cs
  induction cs with
  | nil => intro _ l hl; simp [splitlinesKeep] at hl
  | cons c rest ih =>
    intro h l hl
    rw [splitlinesKeep] at hl
    by_cases hc : c = '\n'
    · rw [if_pos hc] at hl
      rcases List.mem_cons.mp hl with h1 | h1
      · rw [h1]; rfl
      · exact ih (noOpener_tail h) l h1
    · rw [if_neg hc] at hl
      cases hs : splitlinesKeep rest with
      | nil =>
        rw [hs] at hl
        simp at hl
        rw [hl]
        rfl
      | cons l2 ls =>
        rw [hs] at hl
        rcases List.mem_cons.mp hl with h1 | h1
        · -- l = c :: l2, and l2 ++ (flatten ls) = rest
          have hjoin : l2 ++ ls.flatten = rest := by
            have := splitlines_join rest
            rw [hs, List.flatten_cons] at this
            exact this
          have : noOpener (c :: (l2 ++ ls.flatten)) = true := by
            rw [hjoin]; exact h
          rw [h1]
          exact @noOpener_append_left (c :: l2) ls.flatten
            (by rw [List.cons_append]; exact this)
        · exact ih (noOpener_tail h) l (by rw [hs]; simp [h1])

theorem lineToksF_noOp (ln fuel : Nat) (cs : List Char)
    (h : noOpener cs = true) :
    lineToksF ln fuel cs = [(ln, .str, String.mk cs)] := by
  cases fuel with
  | zero => rfl
  | succ f => rw [lineToksF, scanTok_none_noOp h]

theorem tokenize_noOp_aux :
    ∀ (ls : List (List Char)) (k : Nat), (∀ l ∈ ls, noOpener l = true) →
      ((enum1From k ls).flatMap fun pr => lineToks pr.1 pr.2) =
        (enum1From k ls).map fun pr => (pr.1, TokType.str, String.mk pr.2) := by
  intro ls
  induction ls with
  | nil => intro k _; rfl
  | cons l ls2 ih =>
    intro k h
    rw [enum1From]
    rw [List.flatMap_cons, List.map_cons]
    rw [ih (k + 1) (fun l2 h2 => h l2 (by simp [h2]))]
    rw [lineToks, lineToksF_noOp k (l.length + 1) l (h l (by simp))]
    rfl

theorem tokenize_noOp (t : String) (h : noOpener t.data = true) :
    tokenize t =
      (enum1From 1 (splitlinesKeep t.data)).map fun pr =>
        (pr.1, TokType.str, String.mk pr.2) := by
  rw [tokenize]
  exact tokenize_noOp_aux (splitlinesKeep t.data) 1 (splitlines_noOp t.data h)

theorem parseChunk_strings :
    ∀ (toks : List (Nat × String)) (fuel lastLn : Nat) (name : String)
      (tags : List TagKind), toks.length < fuel →
      ∃ lnEnd, parseChunk name tags fuel lastLn
          (toks.map fun pr => (pr.1, TokType.str, pr.2)) =
        .ok ⟨Option.none, lnEnd, toks.map fun pr => .string pr.1 pr.2, []⟩ := by
  intro toks
  induction toks with
  | nil =>
    intro fuel lastLn name tags hf
    cases fuel with
    | zero => omega
    | succ f => exact ⟨lastLn, rfl⟩
  | cons pr toks2 ih =>
    intro fuel lastLn name tags hf
    cases fuel with
    | zero => simp at hf
    | succ f =>
      obtain ⟨lnEnd, hrec⟩ := ih f pr.1 name tags (by simp at hf; omega)
      refine ⟨lnEnd, ?_⟩
      rw [List.map_cons, parseChunk, hrec]
      simp

theorem nodeWeight_pos : ∀ (n : Node), 1 ≤ nodeWeight n := by
  intro n
  cases n <;> simp only [nodeWeight.eq_def] <;> omega

theorem nodesWeight_ge_length :
    ∀ (ns : List Node), ns.length ≤ nodesWeight ns := by
  intro ns
  induction ns with
  | nil => simp [nodesWeight]
  | cons n rest ih =>
    rw [nodesWeight]
    have := nodeWeight_pos n
    simp only [List.length_cons]
    omega

theorem renderNodes_strings :
    ∀ (toks : List (Nat × String)) (fuel : Nat) (name : String)
      (p : List (String × Value)) (sh : Shared), toks.length < fuel →
      renderNodes fuel name (toks.map fun pr => .string pr.1 pr.2) p sh =
        .ok (p, ⟨sh.buffer ++ toks.map (fun pr => pr.2), sh.blocks⟩) := by
  intro toks
  induction toks with
  | nil => intro fuel name p sh _; simp [renderNodes]
  | cons pr toks2 ih =>
    intro fuel name p sh hf
    cases fuel with
    | zero => simp at hf
    | succ f =>
      rw [List.map_cons, renderNodes]
      cases f with
      | zero => simp at hf
      | succ f2 =>
        have h1 : renderNode (f2 + 1) (.string pr.1 pr.2) p sh =
            .ok (p, { sh with buffer := sh.buffer ++ [pr.2] }) := rfl
        rw [h1]
        show renderNodes (f2 + 1) name
            (toks2.map fun pr => Node.string pr.1 pr.2) p
            ⟨sh.buffer ++ [pr.2], sh.blocks⟩ = _
        rw [ih (f2 + 1) name p ⟨sh.buffer ++ [pr.2], sh.blocks⟩
          (by simp at hf; omega)]
        simp

theorem strConcat_mk :
    ∀ (ls : List (List Char)),
      strConcat (ls.map String.mk) = String.mk ls.flatten := by
  intro ls
  induction ls with
  | nil => rfl
  | cons l ls2 ih => rw [List.map_cons, strConcat, ih]; rfl


/-- C8: for every template source string containing only literal text (no
`\x7b\x7b`, `\x7b%`, or `\x7b#` delimiter constructs — no two-character
opener occurs anywhere, as `noOpener` states), compiling and rendering it
with any parameters returns exactly the original source string. -/
theorem c8_literal_roundtrip :
    ∀ (t : String) (params : List (String × Value)),
      noOpener t.data = true →
      parserCompileRender t params = .ok (.ok t) := by
  intro t params h
  set ls := splitlinesKeep t.data with hls
  set toks : List (Nat × String) :=
    (enum1From 1 ls).map fun pr => (pr.1, String.mk pr.2) with htoks
  have hmap : ((enum1From 1 ls).map fun pr =>
      (pr.1, TokType.str, String.mk pr.2)) =
      toks.map fun pr => (pr.1, TokType.str, pr.2) := by
    rw [htoks, List.map_map]
    rfl
  obtain ⟨lnEnd, hchunk⟩ := parseChunk_strings toks
    (16 * ((toks.map fun pr => (pr.1, TokType.str, pr.2)).length + 2)) 0
    "<string>" defaultTags (by simp only [List.length_map]; omega)
  have hcomp : parserCompile t =
      .ok (Template.mk (toks.map fun pr => Node.string pr.1 pr.2)
        "<string>" []) := by
    rw [parserCompile, compileT]
    rw [tokenize_noOp t h, ← hls, hmap]
    rw [parseAllNodes]
    simp only [bind, Except.bind]
    rw [hchunk]
  have hrend : renderT (Template.mk (toks.map fun pr => Node.string pr.1 pr.2)
      "<string>" []) params = .ok t := by
    rw [renderT]
    simp only [bind, Except.bind, Template.nodes, Template.name,
      Template.defaults]
    have hw := nodesWeight_ge_length (toks.map fun pr => Node.string pr.1 pr.2)
    rw [renderNodes_strings toks _ _ _ _
      (by simp only [List.length_map] at hw ⊢; omega)]
    simp only [List.nil_append]
    have hbuf : (toks.map fun pr => pr.2) = ls.map String.mk := by
      rw [htoks, List.map_map]
      have he : ∀ (k : Nat) (xs : List (List Char)),
          (enum1From k xs).map (fun pr => String.mk pr.2) = xs.map String.mk := by
        intro k xs
        induction xs generalizing k with
        | nil => rfl
        | cons x xs2 ih =>
          rw [enum1From, List.map_cons, List.map_cons, ih]
      exact he 1 ls
    rw [hbuf, strConcat_mk, hls, splitlines_join, strMk_data]
  rw [parserCompileRender, hcomp]
  simp only [Except.map]
  rw [hrend]

theorem c8_literal_roundtrip_witness :
    parserCompileRender "Hello world" [("x", .int 1)] =
      .ok (.ok "Hello world") :=
  c8_literal_roundtrip "Hello world" [("x", .int 1)] rfl

theorem data_eq_nil_iff (a : String) : a.data = [] ↔ a = "" := by
  constructor
  · intro h
    have := strMk_data a
    rw [h] at this
    exact this.symm
  · intro h
    rw [h]

theorem emptyDelimiter_aux (X : String) (tok : RawTok)
    (hXne : X.data ≠ [])
    (hXnl : ∀ c ∈ X.data, c ≠ '\n')
    (hmatch : ∀ rest : List Char, matchAt (X.data ++ rest) = some (tok, rest))
    (htok : ∀ ln, tokOf ln tok = [])
    (a b : String) (params : List (String × Value))
    (ha : ∀ c ∈ a.data, c ≠ '{' ∧ c ≠ '\n')
    (hb : ∀ c ∈ b.data, c ≠ '{' ∧ c ≠ '\n') :
    tokenize (a ++ X ++ b) =
      (if a = "" then [] else [(1, TokType.str, a)]) ++
        [(1, TokType.str, b)] ∧
    parserCompileRender (a ++ X ++ b) params = .ok (.ok (a ++ b)) := by
  have hdata : (a ++ X ++ b).data = a.data ++ (X.data ++ b.data) := by
    rw [String.data_append, String.data_append, List.append_assoc]
  have hne : (a ++ X ++ b).data ≠ [] := by
    rw [hdata]
    intro hc
    rcases List.append_eq_nil.mp hc with ⟨_, h2⟩
    rcases List.append_eq_nil.mp h2 with ⟨h3, _⟩
    exact hXne h3
  have hnl : ∀ c ∈ (a ++ X ++ b).data, c ≠ '\n' := by
    rw [hdata]
    intro c hc
    rcases List.mem_append.mp hc with h1 | h1
    · exact (ha c h1).2
    · rcases List.mem_append.mp h1 with h2 | h2
      · exact hXnl c h2
      · exact (hb c h2).2
  obtain ⟨x0, xr, hX⟩ : ∃ x0 xr, X.data = x0 :: xr := by
    cases hXd : X.data with
    | nil => exact absurd hXd hXne
    | cons x0 xr => exact ⟨x0, xr, rfl⟩
  have hsc2 : scanTok (X.data ++ b.data) = some ([], tok, b.data) := by
    have hm := hmatch b.data
    rw [hX, List.cons_append] at hm ⊢
    rw [scanTok, hm]
  have hsc : scanTok ((a ++ X ++ b).data) = some (a.data, tok, b.data) := by
    rw [hdata, scanTok_append_clean a.data (X.data ++ b.data)
      (fun c hc => (ha c hc).1)]
    rw [hsc2]
    simp
  have htoks : tokenize (a ++ X ++ b) =
      (if a = "" then [] else [(1, TokType.str, a)]) ++
        [(1, TokType.str, b)] := by
    rw [tokenize, splitlines_single _ hne hnl]
    show lineToks 1 (a ++ X ++ b).data ++ [] = _
    rw [List.append_nil, lineToks]
    cases hfl : (a ++ X ++ b).data.length with
    | zero =>
      exfalso
      exact hne (List.length_eq_zero.mp hfl)
    | succ flen =>
      rw [lineToksF_step 1 (flen + 1) _ _ _ _ hsc, htok]
      rw [lineToksF_clean 1 (flen + 1) b.data (fun c hc => (hb c hc).1)]
      rw [strMk_data, strMk_data]
      by_cases hae : a = ""
      · rw [if_pos hae]
        have : a.data = [] := by rw [hae]
        rw [this]
        simp
      · have : a.data ≠ [] := fun hc => hae ((data_eq_nil_iff a).mp hc)
        rw [if_neg hae, if_pos this]
        simp
  refine ⟨htoks, ?_⟩
  by_cases hae : a = ""
  · -- single string token b
    have htoks2 : tokenize (a ++ X ++ b) =
        ([(1, b)] : List (Nat × String)).map fun pr =>
          (pr.1, TokType.str, pr.2) := by
      rw [htoks, if_pos hae]
      rfl
    obtain ⟨lnEnd, hchunk⟩ := parseChunk_strings [(1, b)]
      (16 * ((([(1, b)] : List (Nat × String)).map fun pr =>
        (pr.1, TokType.str, pr.2)).length + 2)) 0 "<string>" defaultTags
      (by simp only [List.length_map, List.length_cons, List.length_nil]
          omega)
    have hcomp : parserCompile (a ++ X ++ b) =
        .ok (Template.mk [.string 1 b] "<string>" []) := by
      rw [parserCompile, compileT, htoks2, parseAllNodes]
      simp only [bind, Except.bind]
      rw [hchunk]
      rfl
    have hrend : renderT (Template.mk [.string 1 b] "<string>" []) params =
        .ok (a ++ b) := by
      rw [renderT]
      simp only [bind, Except.bind, Template.nodes, Template.name,
        Template.defaults]
      have h1 : ([.string 1 b] : List Node) =
          ([(1, b)] : List (Nat × String)).map fun pr =>
            .string pr.1 pr.2 := rfl
      rw [h1, renderNodes_strings [(1, b)] _ _ _ _ (by simp [nodesWeight, nodeWeight])]
      simp only [List.nil_append]
      have h2 : strConcat (([(1, b)] : List (Nat × String)).map fun pr => pr.2)
          = b ++ "" := rfl
      rw [h2, String.append_empty, hae]
      have : ("" : String) ++ b = b := String.empty_append b
      rw [this]
    rw [parserCompileRender, hcomp]
    simp only [Except.map]
    rw [hrend]
  · have htoks2 : tokenize (a ++ X ++ b) =
        ([(1, a), (1, b)] : List (Nat × String)).map fun pr =>
          (pr.1, TokType.str, pr.2) := by
      rw [htoks, if_neg hae]
      rfl
    obtain ⟨lnEnd, hchunk⟩ := parseChunk_strings [(1, a), (1, b)]
      (16 * ((([(1, a), (1, b)] : List (Nat × String)).map fun pr =>
        (pr.1, TokType.str, pr.2)).length + 2)) 0 "<string>" defaultTags
      (by simp only [List.length_map, List.length_cons, List.length_nil]
          omega)
    have hcomp : parserCompile (a ++ X ++ b) =
        .ok (Template.mk [.string 1 a, .string 1 b] "<string>" []) := by
      rw [parserCompile, compileT, htoks2, parseAllNodes]
      simp only [bind, Except.bind]
      rw [hchunk]
      rfl
    have hrend : renderT (Template.mk [.string 1 a, .string 1 b] "<string>" [])
        params = .ok (a ++ b) := by
      rw [renderT]
      simp only [bind, Except.bind, Template.nodes, Template.name,
        Template.defaults]
      have h1 : ([.string 1 a, .string 1 b] : List Node) =
          ([(1, a), (1, b)] : List (Nat × String)).map fun pr =>
            .string pr.1 pr.2 := rfl
      rw [h1, renderNodes_strings [(1, a), (1, b)] _ _ _ _
        (by simp [nodesWeight, nodeWeight])]
      simp only [List.nil_append]
      have h2 : strConcat
          (([(1, a), (1, b)] : List (Nat × String)).map fun pr => pr.2) =
          strConcat [a, b] := rfl
      rw [h2, strConcat_pair]
    rw [parserCompileRender, hcomp]
    simp only [Except.map]
    rw [hrend]

/-- C10: For every template line containing a delimiter pair whose inner
content is empty or whitespace-only (`\x7b\x7b\x7d\x7d`, `\x7b\x7b \x7d\x7d`,
`\x7b%%\x7d`, or `\x7b% %\x7d`), the tokenizer emits no token for that
construct — the capture group is empty, so neither an expression token nor a
tag token is produced — and compiling and rendering the template succeeds
with the construct contributing nothing to the output. Stated for an
arbitrary line `a ++ X ++ b` where `a` and `b` are brace-free,
newline-free strings and `X` ranges over the four constructs: the token
stream is exactly the surrounding string tokens, and the full
compile-and-render pipeline returns `a ++ b`. -/
theorem c10_empty_delimiters (a b : String) (params : List (String × Value))
    (ha : ∀ c ∈ a.data, c ≠ '{' ∧ c ≠ '\n')
    (hb : ∀ c ∈ b.data, c ≠ '{' ∧ c ≠ '\n') :
    (tokenize (a ++ "\x7b\x7b\x7d\x7d" ++ b) =
        (if a = "" then [] else [(1, TokType.str, a)]) ++
          [(1, TokType.str, b)] ∧
      parserCompileRender (a ++ "\x7b\x7b\x7d\x7d" ++ b) params =
        .ok (.ok (a ++ b))) ∧
    (tokenize (a ++ "\x7b\x7b \x7d\x7d" ++ b) =
        (if a = "" then [] else [(1, TokType.str, a)]) ++
          [(1, TokType.str, b)] ∧
      parserCompileRender (a ++ "\x7b\x7b \x7d\x7d" ++ b) params =
        .ok (.ok (a ++ b))) ∧
    (tokenize (a ++ "\x7b%%\x7d" ++ b) =
        (if a = "" then [] else [(1, TokType.str, a)]) ++
          [(1, TokType.str, b)] ∧
      parserCompileRender (a ++ "\x7b%%\x7d" ++ b) params =
        .ok (.ok (a ++ b))) ∧
    (tokenize (a ++ "\x7b% %\x7d" ++ b) =
        (if a = "" then [] else [(1, TokType.str, a)]) ++
          [(1, TokType.str, b)] ∧
      parserCompileRender (a ++ "\x7b% %\x7d" ++ b) params =
        .ok (.ok (a ++ b))) :=
  ⟨emptyDelimiter_aux "\x7b\x7b\x7d\x7d" (.exprT "") (by decide) (by decide)
      (fun rest => rfl) (fun ln => rfl) a b params ha hb,
    emptyDelimiter_aux "\x7b\x7b \x7d\x7d" (.exprT "") (by decide) (by decide)
      (fun rest => rfl) (fun ln => rfl) a b params ha hb,
    emptyDelimiter_aux "\x7b%%\x7d" (.tagT "") (by decide) (by decide)
      (fun rest => rfl) (fun ln => rfl) a b params ha hb,
    emptyDelimiter_aux "\x7b% %\x7d" (.tagT "") (by decide) (by decide)
      (fun rest => rfl) (fun ln => rfl) a b params ha hb⟩

theorem c10_empty_delimiters_witness :
    tokenize "x\x7b\x7b\x7d\x7dy" = [(1, TokType.str, "x"), (1, TokType.str, "y")] ∧
      parserCompileRender "x\x7b% %\x7dy" [] = .ok (.ok "xy") := by
  have h := c10_empty_delimiters "x" "y" [] (by decide) (by decide)
  constructor
  · have h1 := h.1.1
    simpa using h1
  · have h2 := h.2.2.2.2
    simpa using h2


theorem lineToksF_congr (ln : Nat) :
    ∀ (n f1 f2 : Nat) (cs : List Char), cs.length ≤ n →
      cs.length < f1 → cs.length < f2 →
      lineToksF ln f1 cs = lineToksF ln f2 cs := by
  intro n
  induction n with
  | zero =>
    intro f1 f2 cs h0 h1 h2
    have hcs : cs = [] := List.length_eq_zero.mp (Nat.le_zero.mp h0)
    subst hcs
    cases f1 with
    | zero => omega
    | succ g1 =>
      cases f2 with
      | zero => omega
      | succ g2 => rfl
  | succ m ih =>
    intro f1 f2 cs h0 h1 h2
    cases f1 with
    | zero => omega
    | succ g1 =>
      cases f2 with
      | zero => omega
      | succ g2 =>
        rw [lineToksF, lineToksF]
        cases hsc : scanTok cs with
        | none => rfl
        | some pr =>
          obtain ⟨pre, t, after⟩ := pr
          have hlen := scanTok_len hsc
          show (if pre ≠ [] then [(ln, TokType.str, String.mk pre)] else []) ++
              tokOf ln t ++ lineToksF ln g1 after =
            (if pre ≠ [] then [(ln, TokType.str, String.mk pre)] else []) ++
              tokOf ln t ++ lineToksF ln g2 after
          rw [ih g1 g2 after (by omega) (by omega) (by omega)]

theorem lineToks_clean (ln : Nat) (b : String)
    (hb : ∀ c ∈ b.data, c ≠ '{') :
    lineToks ln b.data = [(ln, TokType.str, b)] := by
  rw [lineToks, lineToksF_clean ln _ b.data hb, strMk_data]

theorem lineToks_seg (ln : Nat) (X : String) (tok : RawTok)
    (hXne : X.data ≠ [])
    (hmatch : ∀ rest : List Char, matchAt (X.data ++ rest) = some (tok, rest))
    (a : String) (ha : ∀ c ∈ a.data, c ≠ '{') (rest : List Char) :
    lineToks ln (a.data ++ (X.data ++ rest)) =
      (if a = "" then [] else [(ln, TokType.str, a)]) ++
        tokOf ln tok ++ lineToks ln rest := by
  obtain ⟨x0, xr, hX⟩ : ∃ x0 xr, X.data = x0 :: xr := by
    cases hXd : X.data with
    | nil => exact absurd hXd hXne
    | cons x0 xr => exact ⟨x0, xr, rfl⟩
  have hsc2 : scanTok (X.data ++ rest) = some ([], tok, rest) := by
    have hm := hmatch rest
    rw [hX, List.cons_append] at hm ⊢
    rw [scanTok, hm]
  have hsc : scanTok (a.data ++ (X.data ++ rest)) =
      some (a.data, tok, rest) := by
    rw [scanTok_append_clean a.data (X.data ++ rest) ha, hsc2]
    simp
  have hXlen : 1 ≤ X.data.length := by rw [hX]; simp
  have hL : (a.data ++ (X.data ++ rest)).length =
      a.data.length + X.data.length + rest.length := by
    simp [List.length_append]
    omega
  rw [lineToks]
  cases hF : (a.data ++ (X.data ++ rest)).length with
  | zero => omega
  | succ G =>
    rw [lineToksF_step ln (G + 1) _ _ _ _ hsc]
    rw [lineToksF_congr ln rest.length (G + 1) (rest.length + 1) rest
      (le_refl _) (by omega) (by omega)]
    rw [← lineToks]
    by_cases hae : a = ""
    · rw [if_pos hae]
      have h0 : a.data = [] := by rw [hae]
      rw [h0]
      simp
    · have h0 : a.data ≠ [] := fun hc => hae ((data_eq_nil_iff a).mp hc)
      rw [if_neg hae, if_pos h0, strMk_data]

theorem lineToks_seg0 (ln : Nat) (X : String) (tok : RawTok)
    (hXne : X.data ≠ [])
    (hmatch : ∀ rest : List Char, matchAt (X.data ++ rest) = some (tok, rest))
    (rest : List Char) :
    lineToks ln (X.data ++ rest) = tokOf ln tok ++ lineToks ln rest := by
  have h2 : lineToks ln (X.data ++ rest) =
      ([] : List Token) ++ tokOf ln tok ++ lineToks ln rest := by
    have h := lineToks_seg ln X tok hXne hmatch "" (by simp) rest
    rw [if_pos rfl] at h
    exact h
  simpa using h2

theorem tokenize_line (T : String) (hne : T.data ≠ [])
    (hnl : ∀ c ∈ T.data, c ≠ '\n') :
    tokenize T = lineToks 1 T.data := by
  rw [tokenize, splitlines_single _ hne hnl]
  show lineToks 1 T.data ++ [] = _
  rw [List.append_nil]

theorem tagLineToks (X1 X2 X3 X4 m1 m2 m3 m4 : String)
    (hX1 : X1.data ≠ []) (hX1nl : ∀ c ∈ X1.data, c ≠ '\n')
    (hm1 : ∀ rest : List Char,
      matchAt (X1.data ++ rest) = some (.tagT m1, rest))
    (hne1 : m1 ≠ "")
    (hX2 : X2.data ≠ []) (hX2nl : ∀ c ∈ X2.data, c ≠ '\n')
    (hm2 : ∀ rest : List Char,
      matchAt (X2.data ++ rest) = some (.tagT m2, rest))
    (hne2 : m2 ≠ "")
    (hX3 : X3.data ≠ []) (hX3nl : ∀ c ∈ X3.data, c ≠ '\n')
    (hm3 : ∀ rest : List Char,
      matchAt (X3.data ++ rest) = some (.tagT m3, rest))
    (hne3 : m3 ≠ "")
    (hX4 : X4.data ≠ []) (hX4nl : ∀ c ∈ X4.data, c ≠ '\n')
    (hm4 : ∀ rest : List Char,
      matchAt (X4.data ++ rest) = some (.tagT m4, rest))
    (hne4 : m4 ≠ "")
    (s1 s2 s3 : String)
    (hs1 : ∀ c ∈ s1.data, c ≠ '{' ∧ c ≠ '\n')
    (hs2 : ∀ c ∈ s2.data, c ≠ '{' ∧ c ≠ '\n')
    (hs3 : ∀ c ∈ s3.data, c ≠ '{' ∧ c ≠ '\n') :
    tokenize (X1 ++ s1 ++ X2 ++ s2 ++ X3 ++ s3 ++ X4) =
      [(1, TokType.tag, m1)] ++
      (if s1 = "" then [] else [(1, TokType.str, s1)]) ++
      [(1, TokType.tag, m2)] ++
      (if s2 = "" then [] else [(1, TokType.str, s2)]) ++
      [(1, TokType.tag, m3)] ++
      (if s3 = "" then [] else [(1, TokType.str, s3)]) ++
      [(1, TokType.tag, m4), (1, TokType.str, "")] := by
  have hdata : (X1 ++ s1 ++ X2 ++ s2 ++ X3 ++ s3 ++ X4).data =
      X1.data ++ (s1.data ++ (X2.data ++ (s2.data ++ (X3.data ++
        (s3.data ++ (X4.data ++ [])))))) := by
    simp [String.data_append, List.append_assoc]
  have hne : (X1 ++ s1 ++ X2 ++ s2 ++ X3 ++ s3 ++ X4).data ≠ [] := by
    rw [hdata]
    intro hc
    rcases List.append_eq_nil.mp hc with ⟨h1, _⟩
    exact hX1 h1
  have hnl : ∀ c ∈ (X1 ++ s1 ++ X2 ++ s2 ++ X3 ++ s3 ++ X4).data,
      c ≠ '\n' := by
    rw [hdata]
    intro c hc
    simp only [List.mem_append, List.append_nil] at hc
    rcases hc with h | h | h | h | h | h | h
    · exact hX1nl c h
    · exact (hs1 c h).2
    · exact hX2nl c h
    · exact (hs2 c h).2
    · exact hX3nl c h
    · exact (hs3 c h).2
    · exact hX4nl c h
  rw [tokenize_line _ hne hnl, hdata]
  rw [lineToks_seg0 1 X1 (.tagT m1) hX1 hm1]
  rw [lineToks_seg 1 X2 (.tagT m2) hX2 hm2 s1 (fun c hc => (hs1 c hc).1)]
  rw [lineToks_seg 1 X3 (.tagT m3) hX3 hm3 s2 (fun c hc => (hs2 c hc).1)]
  rw [lineToks_seg 1 X4 (.tagT m4) hX4 hm4 s3 (fun c hc => (hs3 c hc).1)]
  have hnil : lineToks 1 [] = [(1, TokType.str, "")] := rfl
  rw [hnil]
  simp [tokOf, hne1, hne2, hne3, hne4, List.append_assoc]

/-- C5: For every template (in a representative family with arbitrary
brace-free, newline-free clause bodies) in which an `\x7b% elif %\x7d` tag
appears after an `\x7b% else %\x7d` tag inside the same `\x7b% if %\x7d`
construct, and for every such template in which more than one
`\x7b% else %\x7d` tag appears inside the same `\x7b% if %\x7d` construct,
compilation fails with a `TemplateCompileError` (a compile error, never a
render error): the elif-after-else template raises "\x7b% elif %\x7d tag
cannot come after \x7b% else %\x7d." and the double-else template raises
"Only one \x7b% else %\x7d tag is allowed per \x7b% if %\x7d macro.", each
annotated with the template name and the line of the `\x7b% if %\x7d`
tag. -/
theorem c5_else_ordering_errors (s1 s2 s3 : String)
    (hs1 : ∀ c ∈ s1.data, c ≠ '{' ∧ c ≠ '\n')
    (hs2 : ∀ c ∈ s2.data, c ≠ '{' ∧ c ≠ '\n')
    (hs3 : ∀ c ∈ s3.data, c ≠ '{' ∧ c ≠ '\n') :
    parserCompile ("\x7b% if True %\x7d" ++ s1 ++ "\x7b% else %\x7d" ++ s2 ++
        "\x7b% elif True %\x7d" ++ s3 ++ "\x7b% endif %\x7d") =
      .error (.comp "\x7b% elif %\x7d tag cannot come after \x7b% else %\x7d."
        "<string>" 1) ∧
    parserCompile ("\x7b% if True %\x7d" ++ s1 ++ "\x7b% else %\x7d" ++ s2 ++
        "\x7b% else %\x7d" ++ s3 ++ "\x7b% endif %\x7d") =
      .error (.comp
        "Only one \x7b% else %\x7d tag is allowed per \x7b% if %\x7d macro."
        "<string>" 1) := by
  have ht1 := tagLineToks "\x7b% if True %\x7d" "\x7b% else %\x7d"
    "\x7b% elif True %\x7d" "\x7b% endif %\x7d"
    "if True" "else" "elif True" "endif"
    (by decide) (by decide) (fun rest => rfl) (by decide)
    (by decide) (by decide) (fun rest => rfl) (by decide)
    (by decide) (by decide) (fun rest => rfl) (by decide)
    (by decide) (by decide) (fun rest => rfl) (by decide)
    s1 s2 s3 hs1 hs2 hs3
  have ht2 := tagLineToks "\x7b% if True %\x7d" "\x7b% else %\x7d"
    "\x7b% else %\x7d" "\x7b% endif %\x7d"
    "if True" "else" "else" "endif"
    (by decide) (by decide) (fun rest => rfl) (by decide)
    (by decide) (by decide) (fun rest => rfl) (by decide)
    (by decide) (by decide) (fun rest => rfl) (by decide)
    (by decide) (by decide) (fun rest => rfl) (by decide)
    s1 s2 s3 hs1 hs2 hs3
  constructor
  · rw [parserCompile, compileT, ht1]
    split_ifs <;> rfl
  · rw [parserCompile, compileT, ht2]
    split_ifs <;> rfl

theorem c5_else_ordering_errors_witness :
    parserCompile ("\x7b% if True %\x7d" ++ "a" ++ "\x7b% else %\x7d" ++ "b" ++
        "\x7b% elif True %\x7d" ++ "c" ++ "\x7b% endif %\x7d") =
      .error (.comp "\x7b% elif %\x7d tag cannot come after \x7b% else %\x7d."
        "<string>" 1) ∧
    parserCompile ("\x7b% if True %\x7d" ++ "a" ++ "\x7b% else %\x7d" ++ "b" ++
        "\x7b% else %\x7d" ++ "c" ++ "\x7b% endif %\x7d") =
      .error (.comp
        "Only one \x7b% else %\x7d tag is allowed per \x7b% if %\x7d macro."
        "<string>" 1) :=
  c5_else_ordering_errors "a" "b" "c" (by decide) (by decide) (by decide)


theorem loadAllGo_none (data : LoaderData) (nm : String) (a : Value) :
    ∀ (srcs : List (List (String × String))) (acc : List Template),
      (∀ src ∈ srcs, loadSource src nm = Option.none) →
      loadAllGo data nm a acc srcs = .ok acc := by
  intro srcs
  induction srcs with
  | nil => intro acc _; rfl
  | cons s r ih =>
    intro acc h
    rw [loadAllGo, h s (by simp)]
    exact ih acc (fun s2 h2 => h s2 (by simp [h2]))

theorem loadAllGo_append (data : LoaderData) (nm : String) (a : Value) :
    ∀ (xs ys : List (List (String × String))) (acc : List Template),
      loadAllGo data nm a acc (xs ++ ys) =
        (match loadAllGo data nm a acc xs with
         | .ok acc2 => loadAllGo data nm a acc2 ys
         | .error e => .error e) := by
  intro xs
  induction xs with
  | nil => intro ys acc; rfl
  | cons s r ih =>
    intro ys acc
    rw [List.cons_append]
    cases hs : loadSource s nm with
    | none =>
      simp only [loadAllGo, hs]
      exact ih ys acc
    | some text =>
      simp only [loadAllGo, hs]
      split
      next => rfl
      next => rfl
      next t heq => exact ih ys (acc ++ [t])

theorem loaderLoadGo_notFound (data : LoaderData) (allNames : List String) :
    ∀ (tryNames : List String),
      (∀ nm ∈ tryNames, ∀ src ∈ data, loadSource src nm = Option.none) →
      loaderLoadGo data allNames tryNames =
        .error (.notFound ("Could not find a template named " ++
          strIntercalate ", " (allNames.map fun n => "'" ++ n ++ "'") ++
          " in any of " ++
          strIntercalate ", " (data.map fun _ => "<memory>") ++ ".")) := by
  intro tryNames
  induction tryNames with
  | nil => intro _; rfl
  | cons nm rest ih =>
    intro h
    rw [loaderLoadGo]
    simp only [bind, Except.bind, loadAll]
    rw [loadAllGo_none data nm (autoescapeFor nm) data []
      (fun src hsrc => h nm (by simp) src hsrc)]
    exact ih (fun n2 h2 src hsrc => h n2 (by simp [h2]) src hsrc)

theorem loaderLoadGo_skip (data : LoaderData) (allNames : List String)
    (nm : String) (rest : List String)
    (h : ∀ src ∈ data, loadSource src nm = Option.none) :
    loaderLoadGo data allNames (nm :: rest) =
      loaderLoadGo data allNames rest := by
  rw [loaderLoadGo]
  simp only [bind, Except.bind, loadAll]
  rw [loadAllGo_none data nm (autoescapeFor nm) data [] h]
  rfl

theorem loaderLoad_lastSource (data : LoaderData) (nm : String)
    (rest : List String) (pre post : List (List (String × String)))
    (src : List (String × String)) (text : String) (acc2 : List Template)
    (t : Template)
    (hdata : data = pre ++ src :: post)
    (hsrc : loadSource src nm = some text)
    (hpost : ∀ s2 ∈ post, loadSource s2 nm = Option.none)
    (hpre : loadAllGo data nm (autoescapeFor nm) [] pre = .ok acc2)
    (hcomp : compileT text nm
      [("__autoescape__", autoescapeFor nm),
       ("__loader__", Value.loaderV data), ("__super__", superOf acc2)]
      (defaultTags ++ loaderTags) = .ok t) :
    loaderLoad data (nm :: rest) = .ok t := by
  subst hdata
  show loaderLoadGo (pre ++ src :: post) (nm :: rest) (nm :: rest) = .ok t
  rw [loaderLoadGo]
  simp only [bind, Except.bind, loadAll]
  rw [loadAllGo_append (pre ++ src :: post) nm (autoescapeFor nm) pre
    (src :: post) []]
  simp only [hpre, loadAllGo, hsrc, hcomp]
  rw [loadAllGo_none (pre ++ src :: post) nm (autoescapeFor nm) post
    (acc2 ++ [t]) hpost]
  have hlast : (acc2 ++ [t]).getLast? = some t := List.getLast?_concat acc2
  simp only [hlast]

theorem loaderLoad_notFound (data : LoaderData) (names : List String)
    (hne : names ≠ [])
    (h : ∀ nm ∈ names, ∀ src ∈ data, loadSource src nm = Option.none) :
    loaderLoad data names =
      .error (.notFound ("Could not find a template named " ++
        strIntercalate ", " (names.map fun n => "'" ++ n ++ "'") ++
        " in any of " ++
        strIntercalate ", " (data.map fun _ => "<memory>") ++ ".")) := by
  cases names with
  | nil => exact absurd rfl hne
  | cons nm rest =>
    show loaderLoadGo data (nm :: rest) (nm :: rest) = _
    exact loaderLoadGo_notFound data (nm :: rest) (nm :: rest) h

/-- C3 counterexample: with two registered sources both holding data for the
name "n" (the first source's template body is "first", the second's is
"second"), `load("n")` returns the template compiled from the LAST matching
source — rendering it produces "second" — whereas the template compiled from
the first source that has data (the claim's prediction) renders "first". -/
theorem c3_counterexample :
    loaderRender [[("n", "first")], [("n", "second")]] ["n"] [] =
      .ok (.ok "second") ∧
    (loadAll [[("n", "first")], [("n", "second")]] "n").map
        (fun ts => ts.head?.map fun t => renderT t []) =
      .ok (some (.ok "first")) := by
  constructor <;> rfl

/-- C3 (amended): for every call `load(name, *fallback_names)` on a loader
with an ordered list of registered sources, the names are tried in order — a
name for which no source has data is skipped — and the result is the
compiled template from the LAST source that has data for the first tried
name for which any source has data (templates compiled from earlier matching
sources are exposed only through the `__super__` default parameter); if no
source has data for any of the names, load raises `TemplateDoesNotExist`
whose message lists all tried names. -/
theorem c3_last_matching_source :
    (∀ (data : LoaderData) (allNames : List String) (nm : String)
       (rest : List String),
       (∀ src ∈ data, loadSource src nm = Option.none) →
       loaderLoadGo data allNames (nm :: rest) =
         loaderLoadGo data allNames rest) ∧
    (∀ (data : LoaderData) (nm : String) (rest : List String)
       (pre post : List (List (String × String)))
       (src : List (String × String)) (text : String) (acc2 : List Template)
       (t : Template),
       data = pre ++ src :: post →
       loadSource src nm = some text →
       (∀ s2 ∈ post, loadSource s2 nm = Option.none) →
       loadAllGo data nm (autoescapeFor nm) [] pre = .ok acc2 →
       compileT text nm
         [("__autoescape__", autoescapeFor nm),
          ("__loader__", Value.loaderV data), ("__super__", superOf acc2)]
         (defaultTags ++ loaderTags) = .ok t →
       loaderLoad data (nm :: rest) = .ok t) ∧
    (∀ (data : LoaderData) (names : List String), names ≠ [] →
       (∀ nm ∈ names, ∀ src ∈ data, loadSource src nm = Option.none) →
       loaderLoad data names =
         .error (.notFound ("Could not find a template named " ++
           strIntercalate ", " (names.map fun n => "'" ++ n ++ "'") ++
           " in any of " ++
           strIntercalate ", " (data.map fun _ => "<memory>") ++ "."))) :=
  ⟨loaderLoadGo_skip, loaderLoad_lastSource, loaderLoad_notFound⟩

theorem c3_last_matching_source_witness :
    loaderLoadGo [[("b", "B")]] ["a", "b"] ["a", "b"] =
      loaderLoadGo [[("b", "B")]] ["a", "b"] ["b"] ∧
    loaderLoad [[("n", "first")], [("n", "second")]] ["n"] =
      .ok (Template.mk [Node.string 1 "second"] "n"
        [("__autoescape__", Value.none),
         ("__loader__", Value.loaderV [[("n", "first")], [("n", "second")]]),
         ("__super__", Value.tmpl (Template.mk [Node.string 1 "first"] "n"
           [("__autoescape__", Value.none),
            ("__loader__",
              Value.loaderV [[("n", "first")], [("n", "second")]]),
            ("__super__", Value.none)]))]) ∧
    loaderLoad [[("b", "B")]] ["x", "y"] =
      .error (.notFound
        "Could not find a template named 'x', 'y' in any of <memory>.") :=
  ⟨c3_last_matching_source.1 [[("b", "B")]] ["a", "b"] "a" ["b"] (by decide),
   c3_last_matching_source.2.1 [[("n", "first")], [("n", "second")]] "n" []
     [[("n", "first")]] [] [("n", "second")] "second"
     [Template.mk [Node.string 1 "first"] "n"
       [("__autoescape__", Value.none),
        ("__loader__", Value.loaderV [[("n", "first")], [("n", "second")]]),
        ("__super__", Value.none)]]
     (Template.mk [Node.string 1 "second"] "n"
       [("__autoescape__", Value.none),
        ("__loader__", Value.loaderV [[("n", "first")], [("n", "second")]]),
        ("__super__", Value.tmpl (Template.mk [Node.string 1 "first"] "n"
          [("__autoescape__", Value.none),
           ("__loader__",
             Value.loaderV [[("n", "first")], [("n", "second")]]),
           ("__super__", Value.none)]))])
     rfl rfl (by simp) rfl rfl,
   c3_last_matching_source.2.2 [[("b", "B")]] ["x", "y"] (by simp) (by decide)⟩
